import Mathlib

/-!
Verification of the core ray-tracing logic of the Olio renderer
(sphere/triangle/surface-list intersection, hit-record normal handling,
Blinn-Phong shading, point/ambient lights, and the RayColor evaluator).

All definitions are shallow embeddings of the C++ sources:
  - `src/core/geometry/sphere.cc`       (`Sphere::Hit`)
  - `triangle.cc`                       (`Triangle::Hit`, `RayTriangleHit`,
                                         `Triangle::SetPoints`, `ComputeNormal`)
  - `sphere_list.cc` / `surface_list.h` (`SurfaceList::Hit`)
  - `raytracer.cc`                      (`RayTracer::RayColor`)
  - `phong_material.cc`                 (`PhongMaterial::Evaluate`, constructors)
  - `light.cc` within `raytra_parser.cc` (`PointLight::Illuminate`,
                                         `AmbientLight::Illuminate`)
  - `ray.cc`                            (`Ray` constructor, `HitRecord` constructor)
Machine doubles are modelled as real numbers.
-/

/-- 3-component real vector, the embedding of `Vec3r` (Eigen `Vector3d`). -/
structure Vec3 where
  x : ℝ
  y : ℝ
  z : ℝ

namespace Vec3

instance : Add Vec3 := ⟨fun a b => ⟨a.x + b.x, a.y + b.y, a.z + b.z⟩⟩

/-- Dot product (`Eigen .dot`). -/
def dot (a b : Vec3) : ℝ := a.x * b.x + a.y * b.y + a.z * b.z

instance : Sub Vec3 := ⟨fun a b => ⟨a.x - b.x, a.y - b.y, a.z - b.z⟩⟩

instance : Neg Vec3 := ⟨fun a => ⟨-a.x, -a.y, -a.z⟩⟩

instance : SMul ℝ Vec3 := ⟨fun r a => ⟨r * a.x, r * a.y, r * a.z⟩⟩

instance : Zero Vec3 := ⟨⟨0, 0, 0⟩⟩

/-- Cross product (`Eigen .cross`). -/
def cross (a b : Vec3) : Vec3 :=
  ⟨a.y * b.z - a.z * b.y, a.z * b.x - a.x * b.z, a.x * b.y - a.y * b.x⟩

/-- Euclidean norm (`Eigen .norm`). -/
noncomputable def norm (a : Vec3) : ℝ := Real.sqrt (a.dot a)

/-- `Eigen .normalized`: the vector divided componentwise by its norm. -/
noncomputable def normalized (a : Vec3) : Vec3 := ⟨a.x / a.norm, a.y / a.norm, a.z / a.norm⟩

/-- Componentwise (Hadamard) product, as written out elementwise in the C++
light code. -/
def cmul (a b : Vec3) : Vec3 := ⟨a.x * b.x, a.y * b.y, a.z * b.z⟩

end Vec3

/-- Embedding of `PhongMaterial` (`phong_material.cc`): the material node
name plus the Blinn-Phong coefficient set. -/
structure PhongMaterial where
  name : String
  ambient : Vec3
  diffuse : Vec3
  specular : Vec3
  shininess : ℝ
  mirror : Vec3

/-- The parameterized `PhongMaterial` constructor: an empty node name
defaults to `"PhongMaterial"` (`name_ = name.size() ? name : "PhongMaterial"`). -/

def PhongMaterial.create (ambient diffuse specular : Vec3) (shininess : ℝ)
    (mirror : Vec3) (name : String) : PhongMaterial :=
  { name := if name.length = 0 then "PhongMaterial" else name
    ambient := ambient
    diffuse := diffuse
    specular := specular
    shininess := shininess
    mirror := mirror }

/-- Embedding of `Ray` (`ray.cc`): origin and direction. The C++ constructor
normalizes the direction; intersection code itself does not rely on this, so
rays are modelled with an arbitrary direction field and claims quantify over
it. -/
structure Ray where
  origin : Vec3
  dir : Vec3

/-- The C++ `Ray` constructor: `dir_ = dir / dir.norm()`. -/
noncomputable def Ray.make (origin dir : Vec3) : Ray := ⟨origin, dir.normalized⟩

/-- `Ray::At`: `origin + t * direction`. -/
noncomputable def Ray.at (ray : Ray) (t : ℝ) : Vec3 := ray.origin + t • ray.dir

/-- Geometric surface node, the embedding of the `Surface` class hierarchy:
`Sphere` (center, radius), `Triangle` (three points plus the stored face
normal field `normal_`), and `SurfaceList` (ordered children).  Spheres and
triangles carry the optional material pointer set by `SetMaterial`; a
`SurfaceList` never has its material set by this code base. -/
inductive Surface where
  | sphere (center : Vec3) (radius : ℝ) (material : Option PhongMaterial)
  | triangle (point0 point1 point2 normal : Vec3) (material : Option PhongMaterial)
  | list (children : List Surface)

/-- `Surface::GetMaterial`: the stored material pointer (null for lists). -/
def Surface.material : Surface → Option PhongMaterial
  | .sphere _ _ m => m
  | .triangle _ _ _ _ m => m
  | .list _ => none

/-- Whether the surface node is a `SurfaceList`. -/
def Surface.isAggregate : Surface → Bool
  | .list _ => true
  | _ => false

/-- Modelled from the spec: `HitRecord` is declared in `core/ray.h`, which is
not among the provided sources.  Spec §3: rayT, hit point, stored normal and a
back-reference to the hit surface. -/
structure HitRecord where
  rayT : ℝ
  point : Vec3
  normal : Vec3
  surface : Option Surface

/-- Modelled from the spec: a default-constructed (`created empty`) hit
record; its field values are never observable through the functions below
except where a claim's counterexample passes an explicit record instead. -/
def HitRecord.empty : HitRecord := ⟨0, 0, 0, none⟩

instance : Inhabited HitRecord := ⟨HitRecord.empty⟩

/-- Modelled from the spec: the orientation step of `HitRecord::SetNormal`
(`core/ray.h` is not among the provided sources).  Spec §4.1: flip the face
normal if `faceNormal · ray.direction > 0`. -/
noncomputable def orientNormal (ray : Ray) (faceNormal : Vec3) : Vec3 :=
  if 0 < faceNormal.dot ray.dir then -faceNormal else faceNormal

/-- Modelled from the spec: `HitRecord::SetNormal` stores the oriented
(front-facing) normal. -/
noncomputable def HitRecord.setNormal (rec : HitRecord) (ray : Ray) (faceNormal : Vec3) : HitRecord :=
  { rec with normal := orientNormal ray faceNormal }

/-- Embedding of `Sphere::Hit` (`sphere.cc`): quadratic discriminant test,
unconditional choice of the smaller root, range check, then population of the
hit record. -/
noncomputable def sphereHit (center : Vec3) (radius : ℝ) (material : Option PhongMaterial)
    (ray : Ray) (tmin tmax : ℝ) (rec : HitRecord) : Bool × HitRecord :=
  let oc := ray.origin - center
  let discriminant := (ray.dir.dot oc) * (ray.dir.dot oc) -
    (ray.dir.dot ray.dir) * (oc.dot oc - radius * radius)
  if discriminant < 0 then (false, rec)
  else
    let tHit1 := ((-ray.dir).dot oc - Real.sqrt discriminant) / (ray.dir.dot ray.dir)
    let tHit2 := ((-ray.dir).dot oc + Real.sqrt discriminant) / (ray.dir.dot ray.dir)
    let wantedIntersect := min tHit1 tHit2
    if wantedIntersect < tmin ∨ wantedIntersect > tmax then (false, rec)
    else
      let hitPoint := ray.at wantedIntersect
      (true,
        { rec with
            rayT := wantedIntersect
            point := hitPoint
            normal := orientNormal ray ((hitPoint - center).normalized)
            surface := some (Surface.sphere center radius material) })

/-- Exact solution of the 3×3 linear system whose columns are `c1 c2 c3`,
written via Cramer's rule.  Models `Eigen colPivHouseholderQr().solve`, which
returns the exact solution whenever the matrix is invertible; `Triangle::Hit`
only reaches the solve after the non-perpendicularity guard, which (with the
triangle's normal invariant) makes the matrix invertible. -/
noncomputable def solve3 (c1 c2 c3 b : Vec3) : Vec3 :=
  let d := c1.dot (c2.cross c3)
  ⟨b.dot (c2.cross c3) / d, c1.dot (b.cross c3) / d, c1.dot (c2.cross b) / d⟩

/-- Embedding of the static `Triangle::RayTriangleHit`: solve
`[u v -D]·[β γ t]ᵗ = O − p0` and reject a parameter outside `[tmin, tmax]`.
Returns `(t, β, γ)` on success. -/
noncomputable def rayTriangleHit (p0 p1 p2 : Vec3) (ray : Ray) (tmin tmax : ℝ) :
    Option (ℝ × ℝ × ℝ) :=
  let u := p1 - p0
  let v := p2 - p0
  let x := solve3 u v (-ray.dir) (ray.origin - p0)
  if tmin > x.z ∨ tmax < x.z then none
  else some (x.z, x.x, x.y)

/-- Embedding of `Triangle::Hit` (`triangle.cc`): perpendicularity early-out,
linear solve with range check, the three half-plane edge tests at
`x = t·D + O`, then population of the hit record with the stored face
normal. -/
noncomputable def triangleHit (p0 p1 p2 n : Vec3) (material : Option PhongMaterial)
    (ray : Ray) (tmin tmax : ℝ) (rec : HitRecord) : Bool × HitRecord :=
  if n.dot ray.dir = 0 then (false, rec)
  else
    match rayTriangleHit p0 p1 p2 ray tmin tmax with
    | none => (false, rec)
    | some (rayT, _, _) =>
      let x := rayT • ray.dir + ray.origin
      if ((p1 - p0).cross (x - p0)).dot n < 0 then (false, rec)
      else if ((p2 - p1).cross (x - p1)).dot n < 0 then (false, rec)
      else if ((p0 - p2).cross (x - p2)).dot n < 0 then (false, rec)
      else
        (true,
          { rec with
              rayT := rayT
              point := ray.at rayT
              normal := orientNormal ray n
              surface := some (Surface.triangle p0 p1 p2 n material) })

/-- The copy step of `SurfaceList::Hit`: `SetRayT`, `SetPoint`,
`SetNormal(ray, ...)`, `SetSurface` from the best record into the output
record. -/
noncomputable def copyHit (ray : Ray) (rec b : HitRecord) : HitRecord :=
  { rec with
      rayT := b.rayT
      point := b.point
      normal := orientNormal ray b.normal
      surface := b.surface }

mutual

/-- Embedding of the virtual `Surface::Hit` dispatch over the three concrete
surface kinds. -/
noncomputable def Surface.hit (s : Surface) (ray : Ray) (tmin tmax : ℝ)
    (rec : HitRecord) : Bool × HitRecord :=
  match s with
  | .sphere c r m => sphereHit c r m ray tmin tmax rec
  | .triangle p0 p1 p2 n m => triangleHit p0 p1 p2 n m ray tmin tmax rec
  | .list cs => listLoop cs ray tmin tmax false { rec with rayT := tmax } HitRecord.empty

/-- The loop body of `SurfaceList::Hit` (`sphere_list.cc`): the output record
starts with `rayT = tmax`; each child is tested with the original range into
the shared `bestRecord` (threaded, since C++ passes it by reference), and its
result is copied into the output record only when its `rayT` is strictly
smaller than the value currently stored there. -/
noncomputable def listLoop (cs : List Surface) (ray : Ray) (tmin tmax : ℝ)
    (hitAny : Bool) (rec best : HitRecord) : Bool × HitRecord :=
  match cs with
  | [] => (hitAny, rec)
  | s :: rest =>
    let res := Surface.hit s ray tmin tmax best
    if res.1 = true then
      if res.2.rayT < rec.rayT then
        listLoop rest ray tmin tmax true (copyHit ray rec res.2) res.2
      else listLoop rest ray tmin tmax true rec res.2
    else listLoop rest ray tmin tmax hitAny rec res.2

end

/-- The hit result flag of a surface on a fresh record. -/
noncomputable def Surface.hitB (s : Surface) (ray : Ray) (tmin tmax : ℝ) : Bool :=
  (s.hit ray tmin tmax HitRecord.empty).1

/-- The hit parameter of a surface on a fresh record. -/
noncomputable def Surface.hitT (s : Surface) (ray : Ray) (tmin tmax : ℝ) : ℝ :=
  (s.hit ray tmin tmax HitRecord.empty).2.rayT

/-- The hit record a surface produces on a fresh record. -/
noncomputable def Surface.hitOut (s : Surface) (ray : Ray) (tmin tmax : ℝ) : HitRecord :=
  (s.hit ray tmin tmax HitRecord.empty).2

/-- Well-formedness of a scene graph per the spec's data-model invariants:
positive sphere radii, and triangle normals equal to the normalized cross
product of nondegenerate edges. -/
inductive Surface.WF : Surface → Prop where
  | sphere {c : Vec3} {r : ℝ} {m : Option PhongMaterial} (hr : 0 < r) :
      Surface.WF (.sphere c r m)
  | triangle {p0 p1 p2 n : Vec3} {m : Option PhongMaterial}
      (hw : (p1 - p0).cross (p2 - p0) ≠ 0)
      (hn : n = ((p1 - p0).cross (p2 - p0)).normalized) :
      Surface.WF (.triangle p0 p1 p2 n m)
  | list {cs : List Surface} (h : ∀ s ∈ cs, Surface.WF s) : Surface.WF (.list cs)

/-- The material reachable from a hit record (`GetSurface()->GetMaterial()`
composed with the `dynamic_pointer_cast<PhongMaterial>`; the cast always
succeeds on the only concrete material class in this code base). -/
def HitRecord.material (rec : HitRecord) : Option PhongMaterial :=
  rec.surface.bind Surface.material

/-- Embedding of `PhongMaterial::Evaluate` (`phong_material.cc`): Blinn-Phong
response `diffuse + specular * max(0, n·half)^shininess` with
`half = normalize(view + light)`. -/
noncomputable def PhongMaterial.evaluate (m : PhongMaterial) (rec : HitRecord)
    (lightVec viewVec : Vec3) : Vec3 :=
  let biSect := (viewVec + lightVec).normalized
  m.diffuse + Real.rpow (max 0 (rec.normal.dot biSect)) m.shininess • m.specular

/-- Embedding of `PointLight::Illuminate` (`raytra_parser.cc` light section):
inverse-square irradiance with clamped cosine, multiplied elementwise by the
material response; black when the record's surface carries no material named
`"PhongMaterial"`. -/
noncomputable def pointIlluminate (position intensity : Vec3) (rec : HitRecord)
    (viewVec : Vec3) : Vec3 :=
  let distanceSquared := (position - rec.point).dot (position - rec.point)
  let lightVec := (position - rec.point).normalized
  let irradiance := (max 0 (rec.normal.dot lightVec) / distanceSquared) • intensity
  match rec.surface with
  | none => 0
  | some surf =>
    match surf.material with
    | none => 0
    | some m =>
      if m.name = "PhongMaterial" then
        Vec3.cmul irradiance (m.evaluate rec lightVec viewVec)
      else 0

/-- Embedding of `AmbientLight::Illuminate`: elementwise product of the light
color and the material ambient coefficient; black when the record's surface
carries no material named `"PhongMaterial"`. -/
def ambientIlluminate (color : Vec3) (rec : HitRecord) (viewVec : Vec3) : Vec3 :=
  match rec.surface with
  | none => 0
  | some surf =>
    match surf.material with
    | none => 0
    | some m =>
      if m.name = "PhongMaterial" then Vec3.cmul color m.ambient
      else 0

/-- The two concrete light kinds created by the scene parser. -/
inductive Light where
  | point (position intensity : Vec3)
  | ambient (color : Vec3)

/-- Virtual `Light::Illuminate` dispatch. -/
noncomputable def Light.illuminate : Light → HitRecord → Vec3 → Vec3
  | .point position intensity, rec, viewVec => pointIlluminate position intensity rec viewVec
  | .ambient color, rec, viewVec => ambientIlluminate color rec viewVec

/-- Embedding of `RayTracer::RayColor` (`raytracer.cc`).  The C++ fixes the
range to the `kEpsilon` / `kInfinity` constants of the absent `types.h`; the
range is therefore taken as parameters here.  On a miss the color stays the
initial black and `false` is returned; on a hit, a surface whose material is
present and named `"PhongMaterial"` accumulates every light's contribution at
view vector `-1 * direction`, and anything else yields the legacy diagnostic
red. -/
noncomputable def rayColor (tmin tmax : ℝ) (ray : Ray) (scene : Surface)
    (lights : List Light) : Bool × Vec3 :=
  let hr := scene.hit ray tmin tmax HitRecord.empty
  if hr.1 = false then (false, ⟨0, 0, 0⟩)
  else
    match hr.2.material with
    | some m =>
      if m.name = "PhongMaterial" then
        (true, lights.foldl (fun acc l => acc + l.illuminate hr.2 ((-1 : ℝ) • ray.dir)) ⟨0, 0, 0⟩)
      else (true, ⟨1, 0, 0⟩)
    | none => (true, ⟨1, 0, 0⟩)

/-- The mutable point/normal state of a `Triangle` node (`triangle.cc`). -/
structure TriangleSt where
  point0 : Vec3
  point1 : Vec3
  point2 : Vec3
  normal : Vec3

/-- Embedding of `Triangle::ComputeNormal`: the cross product of the two
edges divided by its norm. -/
noncomputable def TriangleSt.computeNormal (t : TriangleSt) : TriangleSt :=
  { t with normal := ((t.point1 - t.point0).cross (t.point2 - t.point0)).normalized }

/-- The three-point `Triangle` constructor: stores the points and calls
`ComputeNormal` (the initial normal field is overwritten). -/
noncomputable def TriangleSt.make (p0 p1 p2 : Vec3) : TriangleSt :=
  TriangleSt.computeNormal ⟨p0, p1, p2, 0⟩

/-- Embedding of `Triangle::SetPoints` exactly as written: it stores the three
points and does NOT call `ComputeNormal`, although its own doc comment says it
should. -/
def TriangleSt.setPoints (t : TriangleSt) (p0 p1 p2 : Vec3) : TriangleSt :=
  { t with point0 := p0, point1 := p1, point2 := p2 }

/-- The functional view of one `SurfaceList::Hit` loop iteration: keep the
incoming record unless the child reports a hit whose parameter is strictly
smaller than the record's current `rayT`. -/
noncomputable def foldStep (ray : Ray) (tmin tmax : ℝ) (acc : HitRecord) (s : Surface) :
    HitRecord :=
  if s.hitB ray tmin tmax = true ∧ s.hitT ray tmin tmax < acc.rayT then s.hitOut ray tmin tmax
  else acc

/-- Instantiated shapes used by the concrete witnesses below. -/
def ray0 : Ray := ⟨⟨0, 0, 0⟩, ⟨1, 0, 0⟩⟩

def sphA : Surface := .sphere ⟨2, 0, 0⟩ 1 none

def sphB : Surface := .sphere ⟨3, 0, 0⟩ 2 none

def recW : HitRecord := ⟨5, ⟨9, 9, 9⟩, ⟨3, 4, 0⟩, none⟩

/-- The spec's triangle test ray: from `(0.25, 0.25, 1)` along `−z` toward
the triangle `(0,0,0), (1,0,0), (0,1,0)`. -/
def ray1 : Ray := ⟨⟨0.25, 0.25, 1⟩, ⟨0, 0, -1⟩⟩

/-- The parser's default Phong material shape used by concrete witnesses:
empty name (hence node name `"PhongMaterial"`), diffuse `(1,1,1)`, zero
specular. -/
def matP : PhongMaterial :=
  PhongMaterial.create ⟨0, 0, 0⟩ ⟨1, 1, 1⟩ ⟨0, 0, 0⟩ 1 ⟨0, 0, 0⟩ ""

/-- The spec's point-light test record: hit at the origin with normal
`(0,0,1)` on a Phong surface with diffuse `(1,1,1)` and zero specular. -/
def recC6 : HitRecord := ⟨1, ⟨0, 0, 0⟩, ⟨0, 0, 1⟩, some (.sphere ⟨0, 0, 0⟩ 1 (some matP))⟩

/-- Material with ambient `(1, 0.5, 0)` for the C7 witness. -/
def matAmb : PhongMaterial :=
  PhongMaterial.create ⟨1, 0.5, 0⟩ ⟨0, 0, 0⟩ ⟨0, 0, 0⟩ 1 ⟨0, 0, 0⟩ ""

def recC7 : HitRecord := ⟨1, ⟨5, 6, 7⟩, ⟨0, 1, 0⟩, some (.sphere ⟨0, 0, 0⟩ 1 (some matAmb))⟩

noncomputable def triC8 : TriangleSt :=
  (TriangleSt.make ⟨0, 0, 0⟩ ⟨1, 0, 0⟩ ⟨0, 1, 0⟩).setPoints ⟨0, 0, 0⟩ ⟨0, 1, 0⟩ ⟨1, 0, 0⟩

/-- A Phong material carrying the nonstandard node name `"Foo"`. -/
def matF : PhongMaterial :=
  PhongMaterial.create ⟨0, 0, 0⟩ ⟨1, 1, 1⟩ ⟨0, 0, 0⟩ 1 ⟨0, 0, 0⟩ "Foo"

def sphF : Surface := .sphere ⟨2, 0, 0⟩ 1 (some matF)

namespace Vec3

@[ext] theorem ext3 {a b : Vec3} (hx : a.x = b.x) (hy : a.y = b.y) (hz : a.z = b.z) :
    a = b := by
  cases a; cases b; simp_all

@[simp] theorem add_mk (a b : Vec3) : a + b = ⟨a.x + b.x, a.y + b.y, a.z + b.z⟩ := rfl
@[simp] theorem sub_mk (a b : Vec3) : a - b = ⟨a.x - b.x, a.y - b.y, a.z - b.z⟩ := rfl
@[simp] theorem neg_mk (a : Vec3) : -a = ⟨-a.x, -a.y, -a.z⟩ := rfl
@[simp] theorem smul_mk (r : ℝ) (a : Vec3) : r • a = ⟨r * a.x, r * a.y, r * a.z⟩ := rfl
@[simp] theorem zero_def : (0 : Vec3) = ⟨0, 0, 0⟩ := rfl

theorem dot_self_nonneg (a : Vec3) : 0 ≤ a.dot a := by
  simp only [dot]
  nlinarith [mul_self_nonneg a.x, mul_self_nonneg a.y, mul_self_nonneg a.z]

theorem dot_self_eq_zero {a : Vec3} : a.dot a = 0 ↔ a = 0 := by
  constructor
  · intro h
    simp only [dot] at h
    have hx : a.x = 0 := by nlinarith [sq_nonneg a.x, sq_nonneg a.y, sq_nonneg a.z]
    have hy : a.y = 0 := by nlinarith [sq_nonneg a.x, sq_nonneg a.y, sq_nonneg a.z]
    have hz : a.z = 0 := by nlinarith [sq_nonneg a.x, sq_nonneg a.y, sq_nonneg a.z]
    ext <;> simp [hx, hy, hz]
  · intro h; subst h; simp [dot]

theorem neg_dot (a b : Vec3) : (-a).dot b = -(a.dot b) := by
  simp [dot]; ring

theorem smul_dot (r : ℝ) (a b : Vec3) : (r • a).dot b = r * a.dot b := by
  simp [dot]; ring

/-- Scalar triple product identity `a · (b × c) = (a × b) · c`. -/
theorem triple (a b c : Vec3) : a.dot (b.cross c) = (a.cross b).dot c := by
  simp [dot, cross]; ring

theorem norm_sq (a : Vec3) : a.norm * a.norm = a.dot a :=
  Real.mul_self_sqrt a.dot_self_nonneg

/-- A vector with nonzero dot-square normalizes to a unit vector
(unit length stated as `dot self = 1`). -/
theorem normalized_unit {a : Vec3} (h : a.dot a ≠ 0) :
    a.normalized.dot a.normalized = 1 := by
  have hn : a.norm * a.norm = a.dot a := a.norm_sq
  have hnz : a.norm ≠ 0 := by
    intro h0
    rw [h0] at hn
    simp at hn
    exact h hn.symm
  simp only [normalized, dot] at *
  field_simp
  simpa [dot] using hn.symm

theorem normalized_dot (a b : Vec3) : a.normalized.dot b = a.dot b / a.norm := by
  simp [normalized, dot]; ring

theorem neg_dot_eq (a b : Vec3) : a.dot (-b) = -(a.dot b) := by
  simp [dot]; ring

end Vec3

@[ext] theorem HitRecord.ext' {a b : HitRecord} (h1 : a.rayT = b.rayT)
    (h2 : a.point = b.point) (h3 : a.normal = b.normal) (h4 : a.surface = b.surface) :
    a = b := by
  cases a; cases b; simp_all

theorem orientNormal_dot_nonpos (ray : Ray) (n : Vec3) :
    (orientNormal ray n).dot ray.dir ≤ 0 := by
  unfold orientNormal
  split_ifs with h
  · rw [Vec3.neg_dot]; linarith
  · linarith

theorem orientNormal_of_nonpos (ray : Ray) (n : Vec3) (h : n.dot ray.dir ≤ 0) :
    orientNormal ray n = n := by
  unfold orientNormal
  split_ifs with h' <;> first | linarith | rfl

theorem orientNormal_unit (ray : Ray) (n : Vec3) (h : n.dot n = 1) :
    (orientNormal ray n).dot (orientNormal ray n) = 1 := by
  unfold orientNormal
  split_ifs
  · simpa [Vec3.dot] using by simp only [Vec3.dot] at h; linarith
  · exact h

theorem copyHit_rayT (ray : Ray) (rec b : HitRecord) : (copyHit ray rec b).rayT = b.rayT := rfl

theorem copyHit_eq_self (ray : Ray) (rec b : HitRecord) (h : b.normal.dot ray.dir ≤ 0) :
    copyHit ray rec b = b := by
  unfold copyHit
  rw [orientNormal_of_nonpos ray b.normal h]

theorem copyHit_left_indep (ray : Ray) (rec rec' b : HitRecord) :
    copyHit ray rec b = copyHit ray rec' b := rfl

theorem hit_sphere_def (c : Vec3) (r : ℝ) (m : Option PhongMaterial) (ray : Ray)
    (tmin tmax : ℝ) (rec : HitRecord) :
    Surface.hit (.sphere c r m) ray tmin tmax rec = sphereHit c r m ray tmin tmax rec := by
  rw [Surface.hit]

theorem hit_triangle_def (p0 p1 p2 n : Vec3) (m : Option PhongMaterial) (ray : Ray)
    (tmin tmax : ℝ) (rec : HitRecord) :
    Surface.hit (.triangle p0 p1 p2 n m) ray tmin tmax rec
      = triangleHit p0 p1 p2 n m ray tmin tmax rec := by
  rw [Surface.hit]

theorem hit_list_def (cs : List Surface) (ray : Ray) (tmin tmax : ℝ) (rec : HitRecord) :
    Surface.hit (.list cs) ray tmin tmax rec
      = listLoop cs ray tmin tmax false { rec with rayT := tmax } HitRecord.empty := by
  rw [Surface.hit]

theorem listLoop_nil (ray : Ray) (tmin tmax : ℝ) (ha : Bool) (rec best : HitRecord) :
    listLoop [] ray tmin tmax ha rec best = (ha, rec) := by
  rw [listLoop]

theorem listLoop_cons (s : Surface) (rest : List Surface) (ray : Ray) (tmin tmax : ℝ)
    (ha : Bool) (rec best : HitRecord) :
    listLoop (s :: rest) ray tmin tmax ha rec best
      = (if (Surface.hit s ray tmin tmax best).1 = true then
          if (Surface.hit s ray tmin tmax best).2.rayT < rec.rayT then
            listLoop rest ray tmin tmax true
              (copyHit ray rec (Surface.hit s ray tmin tmax best).2)
              (Surface.hit s ray tmin tmax best).2
          else listLoop rest ray tmin tmax true rec (Surface.hit s ray tmin tmax best).2
        else listLoop rest ray tmin tmax ha rec (Surface.hit s ray tmin tmax best).2) := by
  rw [listLoop]

theorem rayTriangleHit_some {p0 p1 p2 : Vec3} {ray : Ray} {tmin tmax t b g : ℝ}
    (h : rayTriangleHit p0 p1 p2 ray tmin tmax = some (t, b, g)) :
    tmin ≤ t ∧ t ≤ tmax
      ∧ t = (solve3 (p1 - p0) (p2 - p0) (-ray.dir) (ray.origin - p0)).z
      ∧ b = (solve3 (p1 - p0) (p2 - p0) (-ray.dir) (ray.origin - p0)).x
      ∧ g = (solve3 (p1 - p0) (p2 - p0) (-ray.dir) (ray.origin - p0)).y := by
  simp only [rayTriangleHit] at h
  by_cases hc : tmin > (solve3 (p1 - p0) (p2 - p0) (-ray.dir) (ray.origin - p0)).z
      ∨ tmax < (solve3 (p1 - p0) (p2 - p0) (-ray.dir) (ray.origin - p0)).z
  · rw [if_pos hc] at h
    exact absurd h (by simp)
  · rw [if_neg hc] at h
    push_neg at hc
    rw [Option.some.injEq, Prod.mk.injEq, Prod.mk.injEq] at h
    obtain ⟨hz, hx, hy⟩ := h
    exact ⟨hz ▸ hc.1, hz ▸ hc.2, hz.symm, hx.symm, hy.symm⟩

theorem sphereHit_pair (c : Vec3) (r : ℝ) (m : Option PhongMaterial) (ray : Ray)
    (tmin tmax : ℝ) (rec rec' : HitRecord) :
    (sphereHit c r m ray tmin tmax rec).1 = (sphereHit c r m ray tmin tmax rec').1
    ∧ ((sphereHit c r m ray tmin tmax rec).1 = true →
        (sphereHit c r m ray tmin tmax rec).2 = (sphereHit c r m ray tmin tmax rec').2
        ∧ (sphereHit c r m ray tmin tmax rec).2.rayT ≤ tmax
        ∧ (sphereHit c r m ray tmin tmax rec).2.normal.dot ray.dir ≤ 0) := by
  simp only [sphereHit]
  split_ifs with h1 h2
  · simp
  · simp
  · push_neg at h2
    refine ⟨rfl, fun _ => ⟨rfl, h2.2, orientNormal_dot_nonpos _ _⟩⟩

theorem triangleHit_pair (p0 p1 p2 n : Vec3) (m : Option PhongMaterial) (ray : Ray)
    (tmin tmax : ℝ) (rec rec' : HitRecord) :
    (triangleHit p0 p1 p2 n m ray tmin tmax rec).1
        = (triangleHit p0 p1 p2 n m ray tmin tmax rec').1
    ∧ ((triangleHit p0 p1 p2 n m ray tmin tmax rec).1 = true →
        (triangleHit p0 p1 p2 n m ray tmin tmax rec).2
            = (triangleHit p0 p1 p2 n m ray tmin tmax rec').2
        ∧ (triangleHit p0 p1 p2 n m ray tmin tmax rec).2.rayT ≤ tmax
        ∧ (triangleHit p0 p1 p2 n m ray tmin tmax rec).2.normal.dot ray.dir ≤ 0) := by
  unfold triangleHit
  split_ifs with h0
  · simp
  · rcases hrt : rayTriangleHit p0 p1 p2 ray tmin tmax with _ | ⟨t, b, g⟩
    · simp
    · have hts := rayTriangleHit_some hrt
      simp only [hrt]
      split_ifs with he1 he2 he3
      · simp
      · simp
      · simp
      · refine ⟨rfl, fun _ => ⟨rfl, hts.2.1, orientNormal_dot_nonpos _ _⟩⟩

theorem listLoop_pair (ray : Ray) (tmin tmax : ℝ) (cs : List Surface) :
    ∀ (ha : Bool) (rec rec' best : HitRecord),
      rec.rayT = rec'.rayT → rec.rayT ≤ tmax →
      (rec.rayT < tmax → rec = rec' ∧ rec.normal.dot ray.dir ≤ 0) →
      (listLoop cs ray tmin tmax ha rec best).1 = (listLoop cs ray tmin tmax ha rec' best).1
      ∧ (listLoop cs ray tmin tmax ha rec best).2.rayT
          = (listLoop cs ray tmin tmax ha rec' best).2.rayT
      ∧ (listLoop cs ray tmin tmax ha rec best).2.rayT ≤ tmax
      ∧ ((listLoop cs ray tmin tmax ha rec best).2.rayT < tmax →
          (listLoop cs ray tmin tmax ha rec best).2 = (listLoop cs ray tmin tmax ha rec' best).2
          ∧ (listLoop cs ray tmin tmax ha rec best).2.normal.dot ray.dir ≤ 0) := by
  induction cs with
  | nil =>
    intro ha rec rec' best h1 h2 h3
    simp only [listLoop_nil]
    exact ⟨by simp, h1, h2, h3⟩
  | cons s rest ih =>
    intro ha rec rec' best h1 h2 h3
    simp only [listLoop_cons]
    by_cases hfst : (Surface.hit s ray tmin tmax best).1 = true
    · rw [if_pos hfst, if_pos hfst, ← h1]
      by_cases hlt : (Surface.hit s ray tmin tmax best).2.rayT < rec.rayT
      · rw [if_pos hlt, if_pos hlt]
        have hcopy : copyHit ray rec (Surface.hit s ray tmin tmax best).2
            = copyHit ray rec' (Surface.hit s ray tmin tmax best).2 := copyHit_left_indep ..
        rw [← hcopy]
        exact ih true (copyHit ray rec (Surface.hit s ray tmin tmax best).2)
          (copyHit ray rec (Surface.hit s ray tmin tmax best).2)
          (Surface.hit s ray tmin tmax best).2 rfl (le_of_lt (lt_of_lt_of_le hlt h2))
          (fun _ => ⟨rfl, orientNormal_dot_nonpos _ _⟩)
      · rw [if_neg hlt, if_neg hlt]
        exact ih true rec rec' (Surface.hit s ray tmin tmax best).2 h1 h2 h3
    · rw [if_neg hfst, if_neg hfst]
      exact ih ha rec rec' (Surface.hit s ray tmin tmax best).2 h1 h2 h3

/-- Two `Surface::Hit` calls on the same surface, ray and range agree on the
return flag regardless of the incoming record; on a hit they also agree on
`rayT` (which never exceeds `tmax`), and whenever that `rayT` is strictly
below `tmax` they agree on the whole record, whose stored normal opposes the
ray direction. -/
theorem hit_pair (s : Surface) (ray : Ray) (tmin tmax : ℝ) (rec rec' : HitRecord) :
    (s.hit ray tmin tmax rec).1 = (s.hit ray tmin tmax rec').1
    ∧ ((s.hit ray tmin tmax rec).1 = true →
        (s.hit ray tmin tmax rec).2.rayT = (s.hit ray tmin tmax rec').2.rayT
        ∧ (s.hit ray tmin tmax rec).2.rayT ≤ tmax
        ∧ ((s.hit ray tmin tmax rec).2.rayT < tmax →
            (s.hit ray tmin tmax rec).2 = (s.hit ray tmin tmax rec').2
            ∧ (s.hit ray tmin tmax rec).2.normal.dot ray.dir ≤ 0)) := by
  cases s with
  | sphere c r m =>
    simp only [hit_sphere_def]
    obtain ⟨hf, ht⟩ := sphereHit_pair c r m ray tmin tmax rec rec'
    exact ⟨hf, fun h => ⟨congrArg HitRecord.rayT (ht h).1, (ht h).2.1,
      fun _ => ⟨(ht h).1, (ht h).2.2⟩⟩⟩
  | triangle p0 p1 p2 n m =>
    simp only [hit_triangle_def]
    obtain ⟨hf, ht⟩ := triangleHit_pair p0 p1 p2 n m ray tmin tmax rec rec'
    exact ⟨hf, fun h => ⟨congrArg HitRecord.rayT (ht h).1, (ht h).2.1,
      fun _ => ⟨(ht h).1, (ht h).2.2⟩⟩⟩
  | list cs =>
    simp only [hit_list_def]
    have h := listLoop_pair ray tmin tmax cs false
      { rec with rayT := tmax } { rec' with rayT := tmax } HitRecord.empty rfl (le_refl tmax)
      (fun hlt => absurd hlt (lt_irrefl tmax))
    exact ⟨h.1, fun _ => ⟨h.2.1, h.2.2.1, h.2.2.2⟩⟩

theorem hitOut_rayT (s : Surface) (ray : Ray) (tmin tmax : ℝ) :
    (s.hitOut ray tmin tmax).rayT = s.hitT ray tmin tmax := rfl

theorem hit_fst_hitB (s : Surface) (ray : Ray) (tmin tmax : ℝ) (rec : HitRecord) :
    (s.hit ray tmin tmax rec).1 = s.hitB ray tmin tmax := by
  unfold Surface.hitB
  exact (hit_pair s ray tmin tmax rec HitRecord.empty).1

theorem hit_true_rayT (s : Surface) (ray : Ray) (tmin tmax : ℝ) (rec : HitRecord)
    (h : (s.hit ray tmin tmax rec).1 = true) :
    (s.hit ray tmin tmax rec).2.rayT = s.hitT ray tmin tmax := by
  unfold Surface.hitT
  exact ((hit_pair s ray tmin tmax rec HitRecord.empty).2 h).1

theorem hit_true_le (s : Surface) (ray : Ray) (tmin tmax : ℝ) (rec : HitRecord)
    (h : (s.hit ray tmin tmax rec).1 = true) :
    (s.hit ray tmin tmax rec).2.rayT ≤ tmax :=
  ((hit_pair s ray tmin tmax rec HitRecord.empty).2 h).2.1

theorem hit_true_lt_out (s : Surface) (ray : Ray) (tmin tmax : ℝ) (rec : HitRecord)
    (h : (s.hit ray tmin tmax rec).1 = true)
    (hlt : (s.hit ray tmin tmax rec).2.rayT < tmax) :
    (s.hit ray tmin tmax rec).2 = s.hitOut ray tmin tmax
    ∧ (s.hit ray tmin tmax rec).2.normal.dot ray.dir ≤ 0 := by
  unfold Surface.hitOut
  exact ((hit_pair s ray tmin tmax rec HitRecord.empty).2 h).2.2 hlt

theorem listLoop_fold (ray : Ray) (tmin tmax : ℝ) (cs : List Surface) :
    ∀ (ha : Bool) (rec best : HitRecord), rec.rayT ≤ tmax →
      listLoop cs ray tmin tmax ha rec best
        = (ha || cs.any (fun s => s.hitB ray tmin tmax),
           cs.foldl (foldStep ray tmin tmax) rec) := by
  induction cs with
  | nil => intro ha rec best _; simp [listLoop_nil]
  | cons s rest ih =>
    intro ha rec best hrec
    rw [listLoop_cons]
    by_cases hfst : (Surface.hit s ray tmin tmax best).1 = true
    · have hB : s.hitB ray tmin tmax = true := by
        rw [← hit_fst_hitB s ray tmin tmax best]; exact hfst
      have hT : (Surface.hit s ray tmin tmax best).2.rayT = s.hitT ray tmin tmax :=
        hit_true_rayT s ray tmin tmax best hfst
      rw [if_pos hfst]
      by_cases hlt : (Surface.hit s ray tmin tmax best).2.rayT < rec.rayT
      · rw [if_pos hlt]
        have hlt2 : (Surface.hit s ray tmin tmax best).2.rayT < tmax := lt_of_lt_of_le hlt hrec
        have hout := hit_true_lt_out s ray tmin tmax best hfst hlt2
        have hcopy : copyHit ray rec (Surface.hit s ray tmin tmax best).2
            = Surface.hitOut s ray tmin tmax := by
          rw [copyHit_eq_self _ _ _ hout.2, hout.1]
        have hTlt : s.hitT ray tmin tmax < rec.rayT := by rw [← hT]; exact hlt
        have hToutle : (Surface.hitOut s ray tmin tmax).rayT ≤ tmax := by
          rw [hitOut_rayT, ← hT]; exact le_of_lt hlt2
        rw [hcopy, ih true (Surface.hitOut s ray tmin tmax)
          (Surface.hit s ray tmin tmax best).2 hToutle]
        simp [List.any_cons, List.foldl_cons, foldStep, hB, hTlt]
      · rw [if_neg hlt]
        have hTnlt : ¬ s.hitT ray tmin tmax < rec.rayT := by rw [← hT]; exact hlt
        rw [ih true rec (Surface.hit s ray tmin tmax best).2 hrec]
        simp [List.any_cons, List.foldl_cons, foldStep, hB, hTnlt]
    · have hB : s.hitB ray tmin tmax = false := by
        rw [← hit_fst_hitB s ray tmin tmax best]
        exact Bool.not_eq_true _ ▸ hfst
      rw [if_neg hfst, ih ha rec (Surface.hit s ray tmin tmax best).2 hrec]
      simp [List.any_cons, List.foldl_cons, foldStep, hB]

/-- `SurfaceList::Hit` as a pure fold: the flag is `any child hit`, and the
record is the fold of the strict-improvement step over the record seeded with
`rayT = tmax`. -/
theorem list_hit_fold (cs : List Surface) (ray : Ray) (tmin tmax : ℝ) (rec : HitRecord) :
    Surface.hit (.list cs) ray tmin tmax rec
      = (cs.any (fun s => s.hitB ray tmin tmax),
         cs.foldl (foldStep ray tmin tmax) { rec with rayT := tmax }) := by
  rw [hit_list_def, listLoop_fold ray tmin tmax cs false _ HitRecord.empty (le_refl tmax)]
  simp

theorem foldl_no_copy (ray : Ray) (tmin tmax : ℝ) :
    ∀ (cs : List Surface) (acc : HitRecord), acc.rayT = tmax →
      (∀ s ∈ cs, s.hitB ray tmin tmax = true → tmax ≤ s.hitT ray tmin tmax) →
      cs.foldl (foldStep ray tmin tmax) acc = acc := by
  intro cs
  induction cs with
  | nil => intro acc _ _; rfl
  | cons s rest ih =>
    intro acc h1 h2
    rw [List.foldl_cons]
    have hstep : foldStep ray tmin tmax acc s = acc := by
      unfold foldStep
      split_ifs with hc
      · exact absurd (h1 ▸ hc.2) (not_lt.mpr (h2 s (List.mem_cons_self s rest) hc.1))
      · rfl
    rw [hstep]
    exact ih acc h1 (fun x hx => h2 x (List.mem_cons_of_mem s hx))

theorem foldl_select_post (ray : Ray) (tmin tmax : ℝ) (cj : Surface) :
    ∀ (post : List Surface),
      (∀ s ∈ post, s.hitB ray tmin tmax = true →
        cj.hitT ray tmin tmax ≤ s.hitT ray tmin tmax) →
      post.foldl (foldStep ray tmin tmax) (cj.hitOut ray tmin tmax)
        = cj.hitOut ray tmin tmax := by
  intro post
  induction post with
  | nil => intro _; rfl
  | cons s rest ih =>
    intro h
    rw [List.foldl_cons]
    have hstep : foldStep ray tmin tmax (cj.hitOut ray tmin tmax) s
        = cj.hitOut ray tmin tmax := by
      unfold foldStep
      split_ifs with hc
      · rw [hitOut_rayT] at hc
        exact absurd hc.2 (not_lt.mpr (h s (List.mem_cons_self s rest) hc.1))
      · rfl
    rw [hstep]
    exact ih (fun x hx => h x (List.mem_cons_of_mem s hx))

theorem foldl_select (ray : Ray) (tmin tmax : ℝ) (cj : Surface)
    (hB : cj.hitB ray tmin tmax = true) :
    ∀ (pre post : List Surface) (acc : HitRecord),
      (∀ s ∈ pre, s.hitB ray tmin tmax = true →
        cj.hitT ray tmin tmax < s.hitT ray tmin tmax) →
      (∀ s ∈ post, s.hitB ray tmin tmax = true →
        cj.hitT ray tmin tmax ≤ s.hitT ray tmin tmax) →
      cj.hitT ray tmin tmax < acc.rayT → acc.rayT ≤ tmax →
      (pre ++ cj :: post).foldl (foldStep ray tmin tmax) acc = cj.hitOut ray tmin tmax := by
  intro pre
  induction pre with
  | nil =>
    intro post acc _ hpost hacc1 _
    rw [List.nil_append, List.foldl_cons]
    have hstep : foldStep ray tmin tmax acc cj = cj.hitOut ray tmin tmax := by
      unfold foldStep
      rw [if_pos ⟨hB, hacc1⟩]
    rw [hstep]
    exact foldl_select_post ray tmin tmax cj post hpost
  | cons p rest ih =>
    intro post acc hpre hpost hacc1 hacc2
    rw [List.cons_append, List.foldl_cons]
    by_cases hc : p.hitB ray tmin tmax = true ∧ p.hitT ray tmin tmax < acc.rayT
    · have hstep : foldStep ray tmin tmax acc p = p.hitOut ray tmin tmax := by
        unfold foldStep
        rw [if_pos hc]
      rw [hstep]
      refine ih post (p.hitOut ray tmin tmax)
        (fun x hx => hpre x (List.mem_cons_of_mem p hx)) hpost ?_ ?_
      · rw [hitOut_rayT]
        exact hpre p (List.mem_cons_self p rest) hc.1
      · rw [hitOut_rayT]
        exact le_of_lt (lt_of_lt_of_le hc.2 hacc2)
    · have hstep : foldStep ray tmin tmax acc p = acc := by
        unfold foldStep
        rw [if_neg hc]
      rw [hstep]
      exact ih post acc (fun x hx => hpre x (List.mem_cons_of_mem p hx)) hpost hacc1 hacc2

theorem quad_root (a k c0 s t : ℝ) (ha : a ≠ 0) (hs : s * s = k * k - a * c0)
    (ht : t = (-k - s) / a ∨ t = (-k + s) / a) :
    a * (t * t) + 2 * k * t + c0 = 0 := by
  rcases ht with h | h <;> subst h <;> field_simp <;> nlinarith [hs]

theorem quad_expand (ray : Ray) (c : Vec3) (r t : ℝ)
    (h : (ray.dir.dot ray.dir) * (t * t)
        + 2 * (ray.dir.dot (ray.origin - c)) * t
        + ((ray.origin - c).dot (ray.origin - c) - r * r) = 0) :
    (ray.at t - c).dot (ray.at t - c) = r * r := by
  simp only [Ray.at, Vec3.dot, Vec3.add_mk, Vec3.sub_mk, Vec3.smul_mk] at *
  linear_combination h

/-- The parameter selected by `Sphere::Hit` satisfies the sphere equation:
the accepted hit point lies at distance `radius` from the center. -/
theorem sphere_min_root (c : Vec3) (r : ℝ) (ray : Ray)
    (ha : ray.dir.dot ray.dir ≠ 0)
    (hd : 0 ≤ (ray.dir.dot (ray.origin - c)) * (ray.dir.dot (ray.origin - c))
        - (ray.dir.dot ray.dir) * ((ray.origin - c).dot (ray.origin - c) - r * r)) :
    ∀ t : ℝ,
      t = min
        (((-ray.dir).dot (ray.origin - c)
            - Real.sqrt ((ray.dir.dot (ray.origin - c)) * (ray.dir.dot (ray.origin - c))
              - (ray.dir.dot ray.dir) * ((ray.origin - c).dot (ray.origin - c) - r * r)))
          / (ray.dir.dot ray.dir))
        (((-ray.dir).dot (ray.origin - c)
            + Real.sqrt ((ray.dir.dot (ray.origin - c)) * (ray.dir.dot (ray.origin - c))
              - (ray.dir.dot ray.dir) * ((ray.origin - c).dot (ray.origin - c) - r * r)))
          / (ray.dir.dot ray.dir)) →
      (ray.at t - c).dot (ray.at t - c) = r * r := by
  intro t ht
  have hneg : (-ray.dir).dot (ray.origin - c) = -(ray.dir.dot (ray.origin - c)) :=
    Vec3.neg_dot _ _
  have hs : Real.sqrt ((ray.dir.dot (ray.origin - c)) * (ray.dir.dot (ray.origin - c))
        - (ray.dir.dot ray.dir) * ((ray.origin - c).dot (ray.origin - c) - r * r))
      * Real.sqrt ((ray.dir.dot (ray.origin - c)) * (ray.dir.dot (ray.origin - c))
        - (ray.dir.dot ray.dir) * ((ray.origin - c).dot (ray.origin - c) - r * r))
      = (ray.dir.dot (ray.origin - c)) * (ray.dir.dot (ray.origin - c))
        - (ray.dir.dot ray.dir) * ((ray.origin - c).dot (ray.origin - c) - r * r) :=
    Real.mul_self_sqrt hd
  apply quad_expand
  apply quad_root (ray.dir.dot ray.dir) (ray.dir.dot (ray.origin - c))
    ((ray.origin - c).dot (ray.origin - c) - r * r)
    (Real.sqrt ((ray.dir.dot (ray.origin - c)) * (ray.dir.dot (ray.origin - c))
      - (ray.dir.dot ray.dir) * ((ray.origin - c).dot (ray.origin - c) - r * r))) t ha hs
  rcases min_cases
    (((-ray.dir).dot (ray.origin - c)
        - Real.sqrt ((ray.dir.dot (ray.origin - c)) * (ray.dir.dot (ray.origin - c))
          - (ray.dir.dot ray.dir) * ((ray.origin - c).dot (ray.origin - c) - r * r)))
      / (ray.dir.dot ray.dir))
    (((-ray.dir).dot (ray.origin - c)
        + Real.sqrt ((ray.dir.dot (ray.origin - c)) * (ray.dir.dot (ray.origin - c))
          - (ray.dir.dot ray.dir) * ((ray.origin - c).dot (ray.origin - c) - r * r)))
      / (ray.dir.dot ray.dir)) with hmin | hmin
  · left
    rw [ht, hmin.1, hneg]
  · right
    rw [ht, hmin.1, hneg]

/-- On a hit, `Sphere::Hit` returns `true` together with the record populated
at the smaller root, which lies within `[tmin, tmax]`. -/
theorem sphereHit_true_char (c : Vec3) (r : ℝ) (m : Option PhongMaterial) (ray : Ray)
    (tmin tmax : ℝ) (rec : HitRecord)
    (h : (sphereHit c r m ray tmin tmax rec).1 = true) :
    ∀ t : ℝ,
      t = min
        (((-ray.dir).dot (ray.origin - c)
            - Real.sqrt ((ray.dir.dot (ray.origin - c)) * (ray.dir.dot (ray.origin - c))
              - (ray.dir.dot ray.dir) * ((ray.origin - c).dot (ray.origin - c) - r * r)))
          / (ray.dir.dot ray.dir))
        (((-ray.dir).dot (ray.origin - c)
            + Real.sqrt ((ray.dir.dot (ray.origin - c)) * (ray.dir.dot (ray.origin - c))
              - (ray.dir.dot ray.dir) * ((ray.origin - c).dot (ray.origin - c) - r * r)))
          / (ray.dir.dot ray.dir)) →
      sphereHit c r m ray tmin tmax rec
        = (true, ⟨t, ray.at t, orientNormal ray ((ray.at t - c).normalized),
            some (Surface.sphere c r m)⟩)
      ∧ tmin ≤ t ∧ t ≤ tmax := by
  intro t ht
  subst ht
  simp only [sphereHit] at h ⊢
  split_ifs at h ⊢ with h1 h2
  all_goals try (exfalso; revert h; simp; done)
  push_neg at h2
  exact ⟨rfl, h2.1, h2.2⟩

/-- On a hit, the sphere discriminant is nonnegative. -/
theorem sphereHit_true_disc (c : Vec3) (r : ℝ) (m : Option PhongMaterial) (ray : Ray)
    (tmin tmax : ℝ) (rec : HitRecord)
    (h : (sphereHit c r m ray tmin tmax rec).1 = true) :
    0 ≤ (ray.dir.dot (ray.origin - c)) * (ray.dir.dot (ray.origin - c))
      - (ray.dir.dot ray.dir) * ((ray.origin - c).dot (ray.origin - c) - r * r) := by
  simp only [sphereHit] at h
  split_ifs at h with h1 h2
  all_goals try (exfalso; revert h; simp; done)
  exact not_lt.mp h1

theorem sphereHit_true_normal (c : Vec3) (r : ℝ) (m : Option PhongMaterial) (ray : Ray)
    (tmin tmax : ℝ) (rec : HitRecord)
    (ha : ray.dir.dot ray.dir ≠ 0) (hr : 0 < r)
    (h : (sphereHit c r m ray tmin tmax rec).1 = true) :
    (sphereHit c r m ray tmin tmax rec).2.normal.dot
        (sphereHit c r m ray tmin tmax rec).2.normal = 1
    ∧ (sphereHit c r m ray tmin tmax rec).2.normal.dot ray.dir ≤ 0 := by
  obtain ⟨hchar, -, -⟩ := sphereHit_true_char c r m ray tmin tmax rec h _ rfl
  rw [hchar]
  constructor
  · apply orientNormal_unit
    apply Vec3.normalized_unit
    have hd := sphereHit_true_disc c r m ray tmin tmax rec h
    have hroot := sphere_min_root c r ray ha hd _ rfl
    rw [hroot]
    exact (mul_pos hr hr).ne'
  · exact orientNormal_dot_nonpos _ _

/-- On a hit, `Triangle::Hit` returns `true` together with the record
populated at the solved parameter, which lies within `[tmin, tmax]`, and all
three edge tests at the hit point are nonnegative. -/
theorem triangleHit_true_char (p0 p1 p2 n : Vec3) (m : Option PhongMaterial) (ray : Ray)
    (tmin tmax : ℝ) (rec : HitRecord)
    (h : (triangleHit p0 p1 p2 n m ray tmin tmax rec).1 = true) :
    ∀ t : ℝ, t = (solve3 (p1 - p0) (p2 - p0) (-ray.dir) (ray.origin - p0)).z →
      triangleHit p0 p1 p2 n m ray tmin tmax rec
        = (true, ⟨t, ray.at t, orientNormal ray n, some (Surface.triangle p0 p1 p2 n m)⟩)
      ∧ tmin ≤ t ∧ t ≤ tmax
      ∧ 0 ≤ ((p1 - p0).cross ((t • ray.dir + ray.origin) - p0)).dot n
      ∧ 0 ≤ ((p2 - p1).cross ((t • ray.dir + ray.origin) - p1)).dot n
      ∧ 0 ≤ ((p0 - p2).cross ((t • ray.dir + ray.origin) - p2)).dot n := by
  intro t ht
  unfold triangleHit at h ⊢
  split_ifs at h ⊢ with h0
  all_goals try (exfalso; revert h; simp; done)
  rcases hrt : rayTriangleHit p0 p1 p2 ray tmin tmax with _ | ⟨tr, br, gr⟩ <;> simp only [hrt] at h ⊢
  · exact absurd h (by simp)
  · have hts := rayTriangleHit_some hrt
    have htr : tr = t := by rw [hts.2.2.1, ht]
    subst htr
    split_ifs at h ⊢ with he1 he2 he3
    all_goals try (exfalso; revert h; simp; done)
    push_neg at he1 he2 he3
    exact ⟨rfl, hts.1, hts.2.1, he1, he2, he3⟩

theorem triangleHit_true_normal (p0 p1 p2 n : Vec3) (m : Option PhongMaterial) (ray : Ray)
    (tmin tmax : ℝ) (rec : HitRecord)
    (hw : (p1 - p0).cross (p2 - p0) ≠ 0)
    (hn : n = ((p1 - p0).cross (p2 - p0)).normalized)
    (h : (triangleHit p0 p1 p2 n m ray tmin tmax rec).1 = true) :
    (triangleHit p0 p1 p2 n m ray tmin tmax rec).2.normal.dot
        (triangleHit p0 p1 p2 n m ray tmin tmax rec).2.normal = 1
    ∧ (triangleHit p0 p1 p2 n m ray tmin tmax rec).2.normal.dot ray.dir ≤ 0 := by
  have hunit : n.dot n = 1 := by
    rw [hn]
    exact Vec3.normalized_unit (fun hh => hw (Vec3.dot_self_eq_zero.mp hh))
  obtain ⟨hchar, -⟩ := triangleHit_true_char p0 p1 p2 n m ray tmin tmax rec h _ rfl
  rw [hchar]
  exact ⟨orientNormal_unit ray n hunit, orientNormal_dot_nonpos _ _⟩

theorem foldl_normal_inv (ray : Ray) (tmin tmax : ℝ) (cs : List Surface)
    (hch : ∀ s ∈ cs, s.hitB ray tmin tmax = true → s.hitT ray tmin tmax < tmax →
      (s.hitOut ray tmin tmax).normal.dot (s.hitOut ray tmin tmax).normal = 1
      ∧ (s.hitOut ray tmin tmax).normal.dot ray.dir ≤ 0) :
    ∀ acc : HitRecord, acc.rayT ≤ tmax →
      (acc.rayT < tmax → acc.normal.dot acc.normal = 1 ∧ acc.normal.dot ray.dir ≤ 0) →
      (cs.foldl (foldStep ray tmin tmax) acc).rayT ≤ tmax
      ∧ ((cs.foldl (foldStep ray tmin tmax) acc).rayT < tmax →
          (cs.foldl (foldStep ray tmin tmax) acc).normal.dot
              (cs.foldl (foldStep ray tmin tmax) acc).normal = 1
          ∧ (cs.foldl (foldStep ray tmin tmax) acc).normal.dot ray.dir ≤ 0) := by
  induction cs with
  | nil => intro acc h1 h2; exact ⟨h1, h2⟩
  | cons s rest ih =>
    intro acc h1 h2
    rw [List.foldl_cons]
    by_cases hc : s.hitB ray tmin tmax = true ∧ s.hitT ray tmin tmax < acc.rayT
    · have hstep : foldStep ray tmin tmax acc s = s.hitOut ray tmin tmax := by
        unfold foldStep
        rw [if_pos hc]
      rw [hstep]
      have hTlt : s.hitT ray tmin tmax < tmax := lt_of_lt_of_le hc.2 h1
      refine ih (fun x hx => hch x (List.mem_cons_of_mem s hx)) (s.hitOut ray tmin tmax) ?_ ?_
      · rw [hitOut_rayT]
        exact le_of_lt hTlt
      · intro _
        exact hch s (List.mem_cons_self s rest) hc.1 hTlt
    · have hstep : foldStep ray tmin tmax acc s = acc := by
        unfold foldStep
        rw [if_neg hc]
      rw [hstep]
      exact ih (fun x hx => hch x (List.mem_cons_of_mem s hx)) acc h1 h2

theorem frontFacing_aux (k : ℕ) :
    ∀ (s : Surface), sizeOf s < k → ∀ (ray : Ray) (tmin tmax : ℝ) (rec : HitRecord),
      Surface.WF s → ray.dir.dot ray.dir ≠ 0 →
      (s.hit ray tmin tmax rec).1 = true →
      ((s.hit ray tmin tmax rec).2.rayT < tmax ∨ s.isAggregate = false) →
      (s.hit ray tmin tmax rec).2.normal.dot (s.hit ray tmin tmax rec).2.normal = 1
      ∧ (s.hit ray tmin tmax rec).2.normal.dot ray.dir ≤ 0 := by
  induction k with
  | zero => intro s hs; omega
  | succ k ih =>
    intro s hs ray tmin tmax rec hwf ha hhit hcase
    cases s with
    | sphere c r m =>
      rw [hit_sphere_def] at hhit ⊢
      cases hwf with
      | sphere hr => exact sphereHit_true_normal c r m ray tmin tmax rec ha hr hhit
    | triangle p0 p1 p2 n m =>
      rw [hit_triangle_def] at hhit ⊢
      cases hwf with
      | triangle hw hn => exact triangleHit_true_normal p0 p1 p2 n m ray tmin tmax rec hw hn hhit
    | list cs =>
      have hlt : (Surface.hit (.list cs) ray tmin tmax rec).2.rayT < tmax := by
        rcases hcase with h | h
        · exact h
        · exact absurd h (by simp [Surface.isAggregate])
      have hwfcs : ∀ x ∈ cs, Surface.WF x := by
        cases hwf with
        | list h => exact h
      have hch : ∀ x ∈ cs, x.hitB ray tmin tmax = true → x.hitT ray tmin tmax < tmax →
          (x.hitOut ray tmin tmax).normal.dot (x.hitOut ray tmin tmax).normal = 1
          ∧ (x.hitOut ray tmin tmax).normal.dot ray.dir ≤ 0 := by
        intro x hx hxB hxT
        have hsize : sizeOf x < k := by
          have h1 := List.sizeOf_lt_of_mem hx
          have h2 : sizeOf (Surface.list cs) = 1 + sizeOf cs := by simp
          omega
        exact ih x hsize ray tmin tmax HitRecord.empty (hwfcs x hx) ha hxB (Or.inl hxT)
      rw [list_hit_fold] at hlt ⊢
      have hinv := foldl_normal_inv ray tmin tmax cs hch { rec with rayT := tmax }
        (le_refl tmax) (fun hcon => absurd hcon (lt_irrefl tmax))
      exact hinv.2 hlt

theorem Vec3.cross_neg (a b : Vec3) : a.cross (-b) = -(a.cross b) := by
  simp [Vec3.cross]
  constructor
  · ring
  · constructor <;> ring

/-- Cramer's rule: for an invertible column matrix `[c1 c2 c3]`, the vector
returned by `solve3` solves the linear system. -/
theorem solve3_solves (c1 c2 c3 b : Vec3) (hd : c1.dot (c2.cross c3) ≠ 0) :
    (solve3 c1 c2 c3 b).x • c1 + (solve3 c1 c2 c3 b).y • c2 + (solve3 c1 c2 c3 b).z • c3
      = b := by
  simp only [solve3]
  simp only [Vec3.dot, Vec3.cross] at hd ⊢
  ext <;> simp <;> field_simp <;> ring

theorem sphereA_hit (m : Option PhongMaterial) (tmax : ℝ) (htm : 1 ≤ tmax) (r : HitRecord) :
    Surface.hit (.sphere ⟨2, 0, 0⟩ 1 m) ray0 0 tmax r
      = (true, ⟨1, ⟨1, 0, 0⟩, ⟨-1, 0, 0⟩, some (.sphere ⟨2, 0, 0⟩ 1 m)⟩) := by
  rw [hit_sphere_def]
  have hguard : ¬((1 : ℝ) < 0 ∨ (1 : ℝ) > tmax) := by
    push_neg
    exact ⟨by norm_num, htm⟩
  simp only [sphereHit, ray0, Ray.at, orientNormal, Vec3.normalized, Vec3.norm,
    Vec3.dot, Vec3.sub_mk, Vec3.neg_mk, Vec3.smul_mk, Vec3.add_mk]
  norm_num [Real.sqrt_one]
  exact htm

theorem rayColor_miss (tmin tmax : ℝ) (ray : Ray) (scene : Surface) (lights : List Light)
    (h : (scene.hit ray tmin tmax HitRecord.empty).1 = false) :
    rayColor tmin tmax ray scene lights = (false, ⟨0, 0, 0⟩) := by
  simp only [rayColor]
  rw [if_pos h]

theorem rayColor_phong (tmin tmax : ℝ) (ray : Ray) (scene : Surface) (lights : List Light)
    (h : (scene.hit ray tmin tmax HitRecord.empty).1 = true) (m : PhongMaterial)
    (hm : (scene.hit ray tmin tmax HitRecord.empty).2.material = some m)
    (hname : m.name = "PhongMaterial") :
    rayColor tmin tmax ray scene lights
      = (true, lights.foldl
          (fun acc l =>
            acc + l.illuminate (scene.hit ray tmin tmax HitRecord.empty).2 ((-1 : ℝ) • ray.dir))
          ⟨0, 0, 0⟩) := by
  simp only [rayColor]
  rw [if_neg (by rw [h]; simp)]
  simp only [hm]
  rw [if_pos hname]

theorem rayColor_nonphong (tmin tmax : ℝ) (ray : Ray) (scene : Surface) (lights : List Light)
    (h : (scene.hit ray tmin tmax HitRecord.empty).1 = true)
    (hnot : ∀ m, (scene.hit ray tmin tmax HitRecord.empty).2.material = some m →
      m.name ≠ "PhongMaterial") :
    rayColor tmin tmax ray scene lights = (true, ⟨1, 0, 0⟩) := by
  simp only [rayColor]
  rw [if_neg (by rw [h]; simp)]
  rcases hmat : (scene.hit ray tmin tmax HitRecord.empty).2.material with _ | m
  · simp only [hmat]
  · simp only [hmat]
    rw [if_neg (hnot m hmat)]

theorem pointIlluminate_phong (position intensity : Vec3) (rec : HitRecord) (viewVec : Vec3)
    (m : PhongMaterial) (hm : rec.material = some m) (hname : m.name = "PhongMaterial") :
    pointIlluminate position intensity rec viewVec
      = Vec3.cmul
          ((max 0 (rec.normal.dot ((position - rec.point).normalized))
              / ((position - rec.point).dot (position - rec.point))) • intensity)
          (m.diffuse
            + Real.rpow
                (max 0 (rec.normal.dot
                  ((viewVec + (position - rec.point).normalized).normalized)))
                m.shininess • m.specular) := by
  unfold pointIlluminate
  rcases hsurf : rec.surface with _ | surf
  · rw [HitRecord.material, hsurf] at hm
    simp at hm
  · rw [HitRecord.material, hsurf, Option.some_bind] at hm
    simp only [hsurf, hm]
    rw [if_pos hname]
    rfl

theorem pointIlluminate_nonphong (position intensity : Vec3) (rec : HitRecord) (viewVec : Vec3)
    (hnot : ∀ m, rec.material = some m → m.name ≠ "PhongMaterial") :
    pointIlluminate position intensity rec viewVec = 0 := by
  unfold pointIlluminate
  rcases hsurf : rec.surface with _ | surf
  · simp only [hsurf]
  · simp only [hsurf]
    rcases hmat : surf.material with _ | m
    · simp only [hmat]
    · simp only [hmat]
      rw [if_neg (hnot m (by rw [HitRecord.material, hsurf, Option.some_bind, hmat]))]

theorem ambientIlluminate_phong (color : Vec3) (rec : HitRecord) (viewVec : Vec3)
    (m : PhongMaterial) (hm : rec.material = some m) (hname : m.name = "PhongMaterial") :
    ambientIlluminate color rec viewVec = Vec3.cmul color m.ambient := by
  unfold ambientIlluminate
  rcases hsurf : rec.surface with _ | surf
  · rw [HitRecord.material, hsurf] at hm
    simp at hm
  · rw [HitRecord.material, hsurf, Option.some_bind] at hm
    simp only [hsurf, hm]
    rw [if_pos hname]

theorem ambientIlluminate_nonphong (color : Vec3) (rec : HitRecord) (viewVec : Vec3)
    (hnot : ∀ m, rec.material = some m → m.name ≠ "PhongMaterial") :
    ambientIlluminate color rec viewVec = 0 := by
  unfold ambientIlluminate
  rcases hsurf : rec.surface with _ | surf
  · simp only [hsurf]
  · simp only [hsurf]
    rcases hmat : surf.material with _ | m
    · simp only [hmat]
    · simp only [hmat]
      rw [if_neg (hnot m (by rw [HitRecord.material, hsurf, Option.some_bind, hmat]))]

theorem sphereB_hit (m : Option PhongMaterial) (tmax : ℝ) (htm : 1 ≤ tmax) (r : HitRecord) :
    Surface.hit (.sphere ⟨3, 0, 0⟩ 2 m) ray0 0 tmax r
      = (true, ⟨1, ⟨1, 0, 0⟩, ⟨-1, 0, 0⟩, some (.sphere ⟨3, 0, 0⟩ 2 m)⟩) := by
  rw [hit_sphere_def]
  have hs4 : Real.sqrt 4 = 2 := by
    rw [show (4 : ℝ) = 2 ^ 2 by norm_num]
    exact Real.sqrt_sq (by norm_num)
  simp only [sphereHit, ray0, Ray.at, orientNormal, Vec3.normalized, Vec3.norm,
    Vec3.dot, Vec3.sub_mk, Vec3.neg_mk, Vec3.smul_mk, Vec3.add_mk]
  norm_num [hs4]
  exact htm

theorem sphA_hit (tmax : ℝ) (htm : 1 ≤ tmax) (r : HitRecord) :
    Surface.hit sphA ray0 0 tmax r = (true, ⟨1, ⟨1, 0, 0⟩, ⟨-1, 0, 0⟩, some sphA⟩) :=
  sphereA_hit none tmax htm r

theorem sphB_hit (tmax : ℝ) (htm : 1 ≤ tmax) (r : HitRecord) :
    Surface.hit sphB ray0 0 tmax r = (true, ⟨1, ⟨1, 0, 0⟩, ⟨-1, 0, 0⟩, some sphB⟩) :=
  sphereB_hit none tmax htm r

theorem sphA_hitB (tmax : ℝ) (htm : 1 ≤ tmax) : sphA.hitB ray0 0 tmax = true := by
  unfold Surface.hitB
  rw [sphA_hit tmax htm]

theorem sphA_hitT (tmax : ℝ) (htm : 1 ≤ tmax) : sphA.hitT ray0 0 tmax = 1 := by
  unfold Surface.hitT
  rw [sphA_hit tmax htm]

theorem sphA_hitOut (tmax : ℝ) (htm : 1 ≤ tmax) :
    sphA.hitOut ray0 0 tmax = ⟨1, ⟨1, 0, 0⟩, ⟨-1, 0, 0⟩, some sphA⟩ := by
  unfold Surface.hitOut
  rw [sphA_hit tmax htm]

theorem sphB_hitB (tmax : ℝ) (htm : 1 ≤ tmax) : sphB.hitB ray0 0 tmax = true := by
  unfold Surface.hitB
  rw [sphB_hit tmax htm]

theorem sphB_hitT (tmax : ℝ) (htm : 1 ≤ tmax) : sphB.hitT ray0 0 tmax = 1 := by
  unfold Surface.hitT
  rw [sphB_hit tmax htm]

theorem listNil_hit (ray : Ray) (tmin tmax : ℝ) (rec : HitRecord) :
    Surface.hit (.list []) ray tmin tmax rec = (false, { rec with rayT := tmax }) := by
  rw [hit_list_def, listLoop_nil]

theorem listA_at_tmax :
    Surface.hit (.list [sphA]) ray0 0 1 recW = (true, ⟨1, ⟨9, 9, 9⟩, ⟨3, 4, 0⟩, none⟩) := by
  rw [hit_list_def, listLoop_cons, sphA_hit 1 (le_refl 1) HitRecord.empty]
  norm_num [recW, listLoop_nil]

/-- C1 (amended): `SurfaceList::Hit` tests every child with the original,
unmodified `[tmin, tmax]` range and returns true iff at least one child's
`Hit` returned true.  Whenever some child attains the smallest accepted
`rayT` — strictly before every earlier-listed accepted child (first wins on
ties) and no later than every later one — and that value is strictly below
`tmax`, the returned record is exactly that child's hit record.  Amendment
forced by the counterexample: the record reflects the winning child only when
its `rayT` is strictly less than `tmax`; a child hit exactly at `rayT = tmax`
makes the call return true while only the record's `rayT` field (set to
`tmax`) is written. -/
theorem c1_surfaceList_nearest (ray : Ray) (tmin tmax : ℝ) :
    (∀ (cs : List Surface) (rec : HitRecord),
        (Surface.hit (.list cs) ray tmin tmax rec).1
          = cs.any (fun s => s.hitB ray tmin tmax))
    ∧ (∀ (pre post : List Surface) (cj : Surface) (rec : HitRecord),
        cj.hitB ray tmin tmax = true →
        cj.hitT ray tmin tmax < tmax →
        (∀ s ∈ pre, s.hitB ray tmin tmax = true →
          cj.hitT ray tmin tmax < s.hitT ray tmin tmax) →
        (∀ s ∈ post, s.hitB ray tmin tmax = true →
          cj.hitT ray tmin tmax ≤ s.hitT ray tmin tmax) →
        Surface.hit (.list (pre ++ cj :: post)) ray tmin tmax rec
          = (true, cj.hitOut ray tmin tmax)) := by
  constructor
  · intro cs rec
    rw [list_hit_fold]
  · intro pre post cj rec hB hT hpre hpost
    rw [list_hit_fold]
    have h1 : (pre ++ cj :: post).any (fun s => s.hitB ray tmin tmax) = true := by
      rw [List.any_eq_true]
      exact ⟨cj, List.mem_append_right _ (List.mem_cons_self _ _), hB⟩
    have h2 := foldl_select ray tmin tmax cj hB pre post { rec with rayT := tmax }
      hpre hpost hT (le_refl tmax)
    rw [h1, h2]

/-- C1 witness: two spheres equidistant along the ray (both hit at
`rayT = 1 < tmax = 2`); the list hit returns the first sphere's record —
in particular its `surface` back-reference — demonstrating the deterministic
first-wins tie-break. -/
theorem c1_witness :
    Surface.hit (.list [sphA, sphB]) ray0 0 2 recW
      = (true, ⟨1, ⟨1, 0, 0⟩, ⟨-1, 0, 0⟩, some sphA⟩) := by
  have h2 : (1 : ℝ) ≤ 2 := by norm_num
  have happ := (c1_surfaceList_nearest ray0 0 2).2 [] [sphB] sphA recW
    (sphA_hitB 2 h2)
    (by rw [sphA_hitT 2 h2]; norm_num)
    (by intro s hs; exact absurd hs (List.not_mem_nil s))
    (by
      intro s hs _
      rw [List.mem_singleton] at hs
      subst hs
      rw [sphA_hitT 2 h2, sphB_hitT 2 h2])
  rw [show ([sphA, sphB] : List Surface) = [] ++ sphA :: [sphB] from rfl, happ,
    sphA_hitOut 2 h2]

/-- C1 counterexample: a single sphere hit exactly at `rayT = tmax = 1`.
`SurfaceList::Hit` returns true, and the sole accepted child hit has point
`(1,0,0)` and surface `sphA`, yet the returned record keeps the caller's
stale point `(9,9,9)` and null surface — it does not reflect the accepted
child hit with the smallest `rayT`, contradicting the claim as stated. -/
theorem c1_counterexample :
    (Surface.hit (.list [sphA]) ray0 0 1 recW).1 = true
    ∧ (Surface.hit sphA ray0 0 1 recW).1 = true
    ∧ (Surface.hit sphA ray0 0 1 recW).2.point = ⟨1, 0, 0⟩
    ∧ (Surface.hit sphA ray0 0 1 recW).2.surface = some sphA
    ∧ (Surface.hit (.list [sphA]) ray0 0 1 recW).2.point = ⟨9, 9, 9⟩
    ∧ (Surface.hit (.list [sphA]) ray0 0 1 recW).2.surface = none
    ∧ (⟨9, 9, 9⟩ : Vec3) ≠ ⟨1, 0, 0⟩ := by
  have h1 : (1 : ℝ) ≤ 1 := le_refl 1
  refine ⟨?_, ?_, ?_, ?_, ?_, ?_, ?_⟩
  · rw [listA_at_tmax]
  · rw [sphA_hit 1 h1]
  · rw [sphA_hit 1 h1]
  · rw [sphA_hit 1 h1]
  · rw [listA_at_tmax]
  · rw [listA_at_tmax]
  · norm_num [Vec3.mk.injEq]

/-- C10: `SurfaceList::Hit` writes `tmax` into the output record's `rayT`
before testing any child, and copies a child hit only when its `rayT` is
strictly smaller than the value currently stored.  Hence whenever no child
reports an accepted hit strictly below `tmax`, the returned record is exactly
the caller's record with `rayT := tmax` (so on a miss the function returns
false but has still modified the caller's record), while the flag is still
`any child hit`. -/
theorem c10_surfaceList_frame (cs : List Surface) (ray : Ray) (tmin tmax : ℝ)
    (rec : HitRecord)
    (h : ∀ s ∈ cs, s.hitB ray tmin tmax = true → tmax ≤ s.hitT ray tmin tmax) :
    Surface.hit (.list cs) ray tmin tmax rec
      = (cs.any (fun s => s.hitB ray tmin tmax), { rec with rayT := tmax }) := by
  rw [list_hit_fold, foldl_no_copy ray tmin tmax cs _ rfl h]

/-- C10 witness: the empty list (pure miss: `rayT` still rewritten to `tmax`)
and a single child hit exactly at `tmax` (flag true, record otherwise
untouched). -/
theorem c10_witness :
    Surface.hit (.list []) ray0 0 7 recW = (false, ⟨7, ⟨9, 9, 9⟩, ⟨3, 4, 0⟩, none⟩)
    ∧ Surface.hit (.list [sphA]) ray0 0 1 recW = (true, ⟨1, ⟨9, 9, 9⟩, ⟨3, 4, 0⟩, none⟩) := by
  constructor
  · rw [c10_surfaceList_frame [] ray0 0 7 recW (by intro s hs; exact absurd hs (List.not_mem_nil s))]
    norm_num [recW]
  · rw [c10_surfaceList_frame [sphA] ray0 0 1 recW (by
      intro s hs _
      rw [List.mem_singleton] at hs
      subst hs
      rw [sphA_hitT 1 (le_refl 1)])]
    norm_num [recW, sphA_hitB 1 (le_refl 1)]

/-- C4 (amended): for every successful `Hit` call on a well-formed surface
(positive sphere radii, triangle normals equal to the normalized cross
product of nondegenerate edges) with a nonzero ray direction, the normal
stored in the hit record has unit length (`n·n = 1`) and satisfies
`n · (−direction) ≥ 0`.  Amendment forced by the counterexample: for a
`SurfaceList` this holds only when the recorded `rayT` is strictly below
`tmax` (the record is actually written); a list hit exactly at `tmax` leaves
the caller's previous normal in place.  Sphere and triangle hits
(`isAggregate = false`) satisfy it unconditionally. -/
theorem c4_front_facing (s : Surface) (ray : Ray) (tmin tmax : ℝ) (rec : HitRecord)
    (hwf : Surface.WF s) (hdir : ray.dir ≠ 0)
    (hhit : (s.hit ray tmin tmax rec).1 = true)
    (hcase : (s.hit ray tmin tmax rec).2.rayT < tmax ∨ s.isAggregate = false) :
    (s.hit ray tmin tmax rec).2.normal.dot (s.hit ray tmin tmax rec).2.normal = 1
    ∧ 0 ≤ (s.hit ray tmin tmax rec).2.normal.dot (-ray.dir) := by
  have ha : ray.dir.dot ray.dir ≠ 0 := fun h => hdir (Vec3.dot_self_eq_zero.mp h)
  have haux := frontFacing_aux (sizeOf s + 1) s (by omega) ray tmin tmax rec hwf ha hhit hcase
  refine ⟨haux.1, ?_⟩
  rw [Vec3.neg_dot_eq]
  linarith [haux.2]

/-- C4 witness: the standard sphere hit; the stored normal `(-1,0,0)` is unit
and opposes the ray direction `(1,0,0)`. -/
theorem c4_witness :
    (Surface.hit sphA ray0 0 2 recW).2.normal.dot (Surface.hit sphA ray0 0 2 recW).2.normal = 1
    ∧ 0 ≤ (Surface.hit sphA ray0 0 2 recW).2.normal.dot (-ray0.dir) := by
  apply c4_front_facing sphA ray0 0 2 recW
  · exact Surface.WF.sphere (by norm_num)
  · show (⟨1, 0, 0⟩ : Vec3) ≠ 0
    intro hcon
    have hx := congrArg Vec3.x hcon
    rw [Vec3.zero_def] at hx
    norm_num at hx
  · rw [sphA_hit 2 (by norm_num)]
  · right
    rfl

/-- C4 counterexample: a well-formed scene (one unit sphere, nonzero ray
direction) whose `SurfaceList::Hit` succeeds exactly at `rayT = tmax`; the
returned record keeps the caller's stale normal `(3,4,0)`, which is not unit
length, contradicting the claim as stated. -/
theorem c4_counterexample :
    Surface.WF (.list [sphA])
    ∧ ray0.dir ≠ 0
    ∧ (Surface.hit (.list [sphA]) ray0 0 1 recW).1 = true
    ∧ (Surface.hit (.list [sphA]) ray0 0 1 recW).2.normal = ⟨3, 4, 0⟩
    ∧ (Surface.hit (.list [sphA]) ray0 0 1 recW).2.normal.dot
        (Surface.hit (.list [sphA]) ray0 0 1 recW).2.normal ≠ 1 := by
  refine ⟨Surface.WF.list ?_, ?_, ?_, ?_, ?_⟩
  · intro s hs
    rw [List.mem_singleton] at hs
    subst hs
    exact Surface.WF.sphere (by norm_num)
  · show (⟨1, 0, 0⟩ : Vec3) ≠ 0
    intro hcon
    have hx := congrArg Vec3.x hcon
    rw [Vec3.zero_def] at hx
    norm_num at hx
  · rw [listA_at_tmax]
  · rw [listA_at_tmax]
  · rw [listA_at_tmax]
    norm_num [Vec3.dot]

/-- C2: `Sphere::Hit` computes the discriminant
`(D·oc)² − (D·D)(oc·oc − r²)` with `oc = O − C`; a negative discriminant
returns false with the record untouched; otherwise it takes the smaller of
the two quadratic roots unconditionally — both of which lie on the sphere
when the direction is nonzero — and returns true exactly when that smaller
root lies within `[tmin, tmax]` (so a smaller root below `tmin` with the
larger root in range is still a miss); on acceptance it fills `rayT`, the
point at that parameter, the oriented normal `normalize(point − center)` and
the surface back-reference. -/
theorem c2_sphere_hit (c : Vec3) (r : ℝ) (m : Option PhongMaterial) (ray : Ray)
    (tmin tmax : ℝ) (rec : HitRecord) (disc t1 t2 t : ℝ)
    (hdisc : disc = (ray.dir.dot (ray.origin - c)) * (ray.dir.dot (ray.origin - c))
      - (ray.dir.dot ray.dir) * ((ray.origin - c).dot (ray.origin - c) - r * r))
    (ht1 : t1 = ((-ray.dir).dot (ray.origin - c) - Real.sqrt disc) / (ray.dir.dot ray.dir))
    (ht2 : t2 = ((-ray.dir).dot (ray.origin - c) + Real.sqrt disc) / (ray.dir.dot ray.dir))
    (ht : t = min t1 t2) :
    (disc < 0 → sphereHit c r m ray tmin tmax rec = (false, rec))
    ∧ ((sphereHit c r m ray tmin tmax rec).1 = true ↔ 0 ≤ disc ∧ tmin ≤ t ∧ t ≤ tmax)
    ∧ ((sphereHit c r m ray tmin tmax rec).1 = true →
        sphereHit c r m ray tmin tmax rec
          = (true, ⟨t, ray.at t, orientNormal ray ((ray.at t - c).normalized),
              some (Surface.sphere c r m)⟩))
    ∧ (0 ≤ disc → ray.dir.dot ray.dir ≠ 0 →
        (ray.at t1 - c).dot (ray.at t1 - c) = r * r
        ∧ (ray.at t2 - c).dot (ray.at t2 - c) = r * r
        ∧ t ≤ t2) := by
  subst hdisc
  subst ht1
  subst ht2
  subst ht
  refine ⟨?_, ⟨?_, ?_⟩, ?_, ?_⟩
  · intro hneg
    simp only [sphereHit]
    rw [if_pos hneg]
  · intro h
    have hd := sphereHit_true_disc c r m ray tmin tmax rec h
    obtain ⟨-, hb1, hb2⟩ := sphereHit_true_char c r m ray tmin tmax rec h _ rfl
    exact ⟨hd, hb1, hb2⟩
  · rintro ⟨hd, hb1, hb2⟩
    simp only [sphereHit]
    rw [if_neg (not_lt.mpr hd), if_neg (by push_neg; exact ⟨hb1, hb2⟩)]
  · intro h
    exact (sphereHit_true_char c r m ray tmin tmax rec h _ rfl).1
  · intro hd ha
    have hs := Real.mul_self_sqrt hd
    refine ⟨?_, ?_, min_le_right _ _⟩
    · apply quad_expand
      apply quad_root (ray.dir.dot ray.dir) (ray.dir.dot (ray.origin - c))
        ((ray.origin - c).dot (ray.origin - c) - r * r)
        (Real.sqrt ((ray.dir.dot (ray.origin - c)) * (ray.dir.dot (ray.origin - c))
          - (ray.dir.dot ray.dir) * ((ray.origin - c).dot (ray.origin - c) - r * r)))
        _ ha hs
      left
      rw [Vec3.neg_dot]
    · apply quad_expand
      apply quad_root (ray.dir.dot ray.dir) (ray.dir.dot (ray.origin - c))
        ((ray.origin - c).dot (ray.origin - c) - r * r)
        (Real.sqrt ((ray.dir.dot (ray.origin - c)) * (ray.dir.dot (ray.origin - c))
          - (ray.dir.dot ray.dir) * ((ray.origin - c).dot (ray.origin - c) - r * r)))
        _ ha hs
      right
      rw [Vec3.neg_dot]

/-- C2 witness: the standard sphere (center `(2,0,0)`, radius 1) and ray from
the origin along `+x` with range `[0,2]`: discriminant 1, roots 1 and 3, the
smaller root 1 is accepted, the record is filled at `t = 1`, and the hit
point lies on the sphere. -/
theorem c2_witness :
    sphereHit ⟨2, 0, 0⟩ 1 none ray0 0 2 recW
      = (true, ⟨1, ray0.at 1, orientNormal ray0 ((ray0.at 1 - ⟨2, 0, 0⟩).normalized),
          some (Surface.sphere ⟨2, 0, 0⟩ 1 none)⟩)
    ∧ (ray0.at 1 - ⟨2, 0, 0⟩).dot (ray0.at 1 - ⟨2, 0, 0⟩) = 1 * 1 := by
  have hdisc : (1 : ℝ) = (ray0.dir.dot (ray0.origin - ⟨2, 0, 0⟩))
      * (ray0.dir.dot (ray0.origin - ⟨2, 0, 0⟩))
      - (ray0.dir.dot ray0.dir)
        * ((ray0.origin - ⟨2, 0, 0⟩).dot (ray0.origin - ⟨2, 0, 0⟩) - 1 * 1) := by
    norm_num [ray0, Vec3.dot, Vec3.sub_mk]
  have ht1 : (1 : ℝ) = ((-ray0.dir).dot (ray0.origin - ⟨2, 0, 0⟩) - Real.sqrt 1)
      / (ray0.dir.dot ray0.dir) := by
    norm_num [ray0, Vec3.dot, Vec3.sub_mk, Vec3.neg_mk, Real.sqrt_one]
  have ht2 : (3 : ℝ) = ((-ray0.dir).dot (ray0.origin - ⟨2, 0, 0⟩) + Real.sqrt 1)
      / (ray0.dir.dot ray0.dir) := by
    norm_num [ray0, Vec3.dot, Vec3.sub_mk, Vec3.neg_mk, Real.sqrt_one]
  have ht : (1 : ℝ) = min 1 3 := (min_eq_left (by norm_num)).symm
  have h := c2_sphere_hit ⟨2, 0, 0⟩ 1 none ray0 0 2 recW 1 1 3 1 hdisc ht1 ht2 ht
  have htrue : (sphereHit ⟨2, 0, 0⟩ 1 none ray0 0 2 recW).1 = true :=
    h.2.1.mpr ⟨by norm_num, by norm_num, by norm_num⟩
  have hroot := h.2.2.2 (by norm_num) (by norm_num [ray0, Vec3.dot])
  exact ⟨h.2.2.1 htrue, hroot.1⟩

/-- C3: `Triangle::Hit` returns false (record untouched) when the ray
direction is exactly perpendicular to the stored face normal; otherwise it
solves the linear system `[u v −D]·[β γ t]ᵗ = O − p0` (exactly, when the
normal invariant holds so the matrix is invertible), rejects `t` outside
`[tmin, tmax]`, and accepts exactly when the three half-plane edge tests at
`x = t·D + O` (edge vector crossed with `x` minus the edge start, dotted
against the face normal) are all `≥ 0`; on acceptance it fills `rayT`, the
hit point, the oriented face normal and the surface reference. -/
theorem c3_triangle_hit (p0 p1 p2 n : Vec3) (m : Option PhongMaterial) (ray : Ray)
    (tmin tmax : ℝ) (rec : HitRecord) (sol : Vec3)
    (hsol : sol = solve3 (p1 - p0) (p2 - p0) (-ray.dir) (ray.origin - p0)) :
    (n.dot ray.dir = 0 → triangleHit p0 p1 p2 n m ray tmin tmax rec = (false, rec))
    ∧ ((p1 - p0).cross (p2 - p0) ≠ 0 → n = ((p1 - p0).cross (p2 - p0)).normalized →
        n.dot ray.dir ≠ 0 →
        sol.x • (p1 - p0) + sol.y • (p2 - p0) + sol.z • (-ray.dir) = ray.origin - p0)
    ∧ (n.dot ray.dir ≠ 0 →
        ((triangleHit p0 p1 p2 n m ray tmin tmax rec).1 = true ↔
          tmin ≤ sol.z ∧ sol.z ≤ tmax
          ∧ 0 ≤ ((p1 - p0).cross ((sol.z • ray.dir + ray.origin) - p0)).dot n
          ∧ 0 ≤ ((p2 - p1).cross ((sol.z • ray.dir + ray.origin) - p1)).dot n
          ∧ 0 ≤ ((p0 - p2).cross ((sol.z • ray.dir + ray.origin) - p2)).dot n))
    ∧ ((triangleHit p0 p1 p2 n m ray tmin tmax rec).1 = true →
        triangleHit p0 p1 p2 n m ray tmin tmax rec
          = (true, ⟨sol.z, ray.at sol.z, orientNormal ray n,
              some (Surface.triangle p0 p1 p2 n m)⟩)) := by
  subst hsol
  refine ⟨?_, ?_, ?_, ?_⟩
  · intro h
    simp only [triangleHit]
    rw [if_pos h]
  · intro hw hn hnd
    apply solve3_solves
    have hwd : ((p1 - p0).cross (p2 - p0)).dot ray.dir ≠ 0 := by
      intro h0
      apply hnd
      rw [hn, Vec3.normalized_dot, h0, zero_div]
    rw [Vec3.cross_neg, Vec3.neg_dot_eq, Vec3.triple]
    exact neg_ne_zero.mpr hwd
  · intro hnd
    constructor
    · intro h
      have hc := triangleHit_true_char p0 p1 p2 n m ray tmin tmax rec h _ rfl
      exact ⟨hc.2.1, hc.2.2.1, hc.2.2.2.1, hc.2.2.2.2.1, hc.2.2.2.2.2⟩
    · rintro ⟨hb1, hb2, he1, he2, he3⟩
      have hsome : rayTriangleHit p0 p1 p2 ray tmin tmax
          = some ((solve3 (p1 - p0) (p2 - p0) (-ray.dir) (ray.origin - p0)).z,
              (solve3 (p1 - p0) (p2 - p0) (-ray.dir) (ray.origin - p0)).x,
              (solve3 (p1 - p0) (p2 - p0) (-ray.dir) (ray.origin - p0)).y) := by
        simp only [rayTriangleHit]
        rw [if_neg (by push_neg; exact ⟨hb1, hb2⟩)]
      simp only [triangleHit]
      rw [if_neg hnd]
      simp only [hsome]
      rw [if_neg (not_lt.mpr he1), if_neg (not_lt.mpr he2), if_neg (not_lt.mpr he3)]
  · intro h
    exact (triangleHit_true_char p0 p1 p2 n m ray tmin tmax rec h _ rfl).1

/-- C3 witness: the spec's test triangle is hit at `t = 1` with barycentric
solution `(β, γ) = (0.25, 0.25)` and all edge tests nonnegative; the record
is filled with the oriented face normal and surface reference. -/
theorem c3_witness :
    triangleHit ⟨0, 0, 0⟩ ⟨1, 0, 0⟩ ⟨0, 1, 0⟩ ⟨0, 0, 1⟩ none ray1 0 2 recW
      = (true, ⟨1, ray1.at 1, orientNormal ray1 ⟨0, 0, 1⟩,
          some (Surface.triangle ⟨0, 0, 0⟩ ⟨1, 0, 0⟩ ⟨0, 1, 0⟩ ⟨0, 0, 1⟩ none)⟩) := by
  have hsol : (⟨0.25, 0.25, 1⟩ : Vec3)
      = solve3 ((⟨1, 0, 0⟩ : Vec3) - ⟨0, 0, 0⟩) ((⟨0, 1, 0⟩ : Vec3) - ⟨0, 0, 0⟩)
          (-ray1.dir) (ray1.origin - ⟨0, 0, 0⟩) := by
    norm_num [solve3, ray1, Vec3.dot, Vec3.cross, Vec3.sub_mk, Vec3.neg_mk, Vec3.mk.injEq]
  have h := c3_triangle_hit ⟨0, 0, 0⟩ ⟨1, 0, 0⟩ ⟨0, 1, 0⟩ ⟨0, 0, 1⟩ none ray1 0 2 recW _ hsol
  have hnd : (⟨0, 0, 1⟩ : Vec3).dot ray1.dir ≠ 0 := by
    norm_num [ray1, Vec3.dot]
  have htrue := (h.2.2.1 hnd).mpr (by
    norm_num [ray1, Vec3.dot, Vec3.cross, Vec3.sub_mk, Vec3.smul_mk, Vec3.add_mk, Vec3.neg_mk])
  exact h.2.2.2 htrue

/-- C5: `RayColor` evaluates the scene hit (over the `[kEpsilon, kInfinity)`
range constants, modelled as the `tmin, tmax` parameters); on a miss the
output color is black and the function returns false; on a hit whose
surface's material is present and named `"PhongMaterial"` it returns the sum
over all lights of `Illuminate(hitRecord, −direction)`; on any other hit it
returns the fixed diagnostic red `(1,0,0)` rather than failing. -/
theorem c5_rayColor (tmin tmax : ℝ) (ray : Ray) (scene : Surface) (lights : List Light) :
    ((scene.hit ray tmin tmax HitRecord.empty).1 = false →
      rayColor tmin tmax ray scene lights = (false, ⟨0, 0, 0⟩))
    ∧ ((scene.hit ray tmin tmax HitRecord.empty).1 = true →
        ∀ m, (scene.hit ray tmin tmax HitRecord.empty).2.material = some m →
          m.name = "PhongMaterial" →
          rayColor tmin tmax ray scene lights
            = (true, lights.foldl (fun acc l =>
                acc + l.illuminate (scene.hit ray tmin tmax HitRecord.empty).2
                  ((-1 : ℝ) • ray.dir)) ⟨0, 0, 0⟩))
    ∧ ((scene.hit ray tmin tmax HitRecord.empty).1 = true →
        (∀ m, (scene.hit ray tmin tmax HitRecord.empty).2.material = some m →
          m.name ≠ "PhongMaterial") →
        rayColor tmin tmax ray scene lights = (true, ⟨1, 0, 0⟩)) :=
  ⟨rayColor_miss tmin tmax ray scene lights,
   fun h m hm hn => rayColor_phong tmin tmax ray scene lights h m hm hn,
   fun h hn => rayColor_nonphong tmin tmax ray scene lights h hn⟩

/-- C5 witness: an empty scene misses (black, false); a Phong sphere scene
with no lights returns true with the empty light sum (black). -/
theorem c5_witness :
    rayColor 0 1 ray0 (.list []) [] = (false, ⟨0, 0, 0⟩)
    ∧ rayColor 0 2 ray0 (.sphere ⟨2, 0, 0⟩ 1 (some matP)) [] = (true, ⟨0, 0, 0⟩) := by
  constructor
  · exact (c5_rayColor 0 1 ray0 (.list []) []).1 (by rw [listNil_hit])
  · have hhit := sphereA_hit (some matP) 2 (by norm_num) HitRecord.empty
    have h := (c5_rayColor 0 2 ray0 (.sphere ⟨2, 0, 0⟩ 1 (some matP)) []).2.1
      (by rw [hhit]) matP (by rw [hhit]; rfl) rfl
    rw [h]
    rfl

/-- C6: `PointLight::Illuminate` returns the elementwise product of the
irradiance `max(0, n·l)/|position − hitPoint|² · intensity` (with
`l = normalize(position − hitPoint)`) and the Blinn-Phong response
`diffuse + specular · max(0, n·half)^shininess` with
`half = normalize(view + l)`; when the record's surface carries no material
named `"PhongMaterial"` it returns black instead of failing. -/
theorem c6_point_illuminate (position intensity : Vec3) (rec : HitRecord) (viewVec : Vec3) :
    (∀ m, rec.material = some m → m.name = "PhongMaterial" →
      pointIlluminate position intensity rec viewVec
        = Vec3.cmul
            ((max 0 (rec.normal.dot ((position - rec.point).normalized))
                / ((position - rec.point).dot (position - rec.point))) • intensity)
            (m.diffuse
              + Real.rpow (max 0 (rec.normal.dot
                    ((viewVec + (position - rec.point).normalized).normalized)))
                  m.shininess • m.specular))
    ∧ ((∀ m, rec.material = some m → m.name ≠ "PhongMaterial") →
        pointIlluminate position intensity rec viewVec = 0) :=
  ⟨fun m hm hn => pointIlluminate_phong position intensity rec viewVec m hm hn,
   fun hn => pointIlluminate_nonphong position intensity rec viewVec hn⟩

/-- C6 witness: the spec's numbers — point light at `(0,0,5)`, intensity
`(1,1,1)`: irradiance `1/25`, response reduces to the diffuse, total
`(0.04, 0.04, 0.04)`. -/
theorem c6_witness :
    pointIlluminate ⟨0, 0, 5⟩ ⟨1, 1, 1⟩ recC6 ⟨0, 0, 1⟩ = ⟨0.04, 0.04, 0.04⟩ := by
  have h := (c6_point_illuminate ⟨0, 0, 5⟩ ⟨1, 1, 1⟩ recC6 ⟨0, 0, 1⟩).1 matP rfl rfl
  rw [h]
  have hs25 : Real.sqrt 25 = 5 := by
    rw [show (25 : ℝ) = 5 ^ 2 by norm_num]
    exact Real.sqrt_sq (by norm_num)
  norm_num [recC6, matP, PhongMaterial.create, Vec3.cmul, Vec3.dot, Vec3.sub_mk,
    Vec3.normalized, Vec3.norm, Vec3.smul_mk, Vec3.add_mk, Vec3.mk.injEq, hs25]

/-- C7: `AmbientLight::Illuminate` returns the elementwise product of the
light's color and the hit surface's material ambient coefficient — the right
side mentions neither the hit geometry nor the view vector, which are
ignored entirely. -/
theorem c7_ambient_illuminate (color : Vec3) (rec : HitRecord) (viewVec : Vec3)
    (m : PhongMaterial) (hm : rec.material = some m)
    (hname : m.name = "PhongMaterial") :
    ambientIlluminate color rec viewVec = Vec3.cmul color m.ambient :=
  ambientIlluminate_phong color rec viewVec m hm hname

/-- C7 witness: ambient light `(0.2,0.2,0.2)` against material ambient
`(1,0.5,0)` yields `(0.2,0.1,0)` (view vector arbitrary). -/
theorem c7_witness :
    ambientIlluminate ⟨0.2, 0.2, 0.2⟩ recC7 ⟨9, 9, 9⟩ = ⟨0.2, 0.1, 0⟩ := by
  rw [c7_ambient_illuminate ⟨0.2, 0.2, 0.2⟩ recC7 ⟨9, 9, 9⟩ matAmb rfl rfl]
  norm_num [matAmb, PhongMaterial.create, Vec3.cmul, Vec3.mk.injEq]

/-- C8 (code bug): `Triangle::SetPoints` stores the three new points but —
contrary to its own doc comment and the spec's invariant — never calls
`ComputeNormal`; after `SetPoints` swaps two vertices the stored normal is
still the constructor's `(0,0,1)` while the normalized cross product of the
new edges is `(0,0,−1)`. -/
theorem c8_setPoints_stale_normal :
    triC8.normal = ⟨0, 0, 1⟩
    ∧ ((triC8.point1 - triC8.point0).cross (triC8.point2 - triC8.point0)).normalized
        = ⟨0, 0, -1⟩
    ∧ triC8.normal
        ≠ ((triC8.point1 - triC8.point0).cross (triC8.point2 - triC8.point0)).normalized := by
  have h1 : triC8.normal = ⟨0, 0, 1⟩ := by
    simp only [triC8, TriangleSt.make, TriangleSt.setPoints, TriangleSt.computeNormal]
    norm_num [Vec3.cross, Vec3.sub_mk, Vec3.normalized, Vec3.norm, Vec3.dot,
      Real.sqrt_one, Vec3.mk.injEq]
  have h2 : ((triC8.point1 - triC8.point0).cross (triC8.point2 - triC8.point0)).normalized
      = ⟨0, 0, -1⟩ := by
    simp only [triC8, TriangleSt.make, TriangleSt.setPoints, TriangleSt.computeNormal]
    norm_num [Vec3.cross, Vec3.sub_mk, Vec3.normalized, Vec3.norm, Vec3.dot,
      Real.sqrt_one, Vec3.mk.injEq]
  refine ⟨h1, h2, ?_⟩
  rw [h1, h2]
  intro hcon
  have hz := congrArg Vec3.z hcon
  norm_num at hz

/-- C9: Phong-compatibility is decided by comparing the material node's name
against the literal `"PhongMaterial"`: any hit whose material was constructed
with a nonempty name different from `"PhongMaterial"` makes `RayColor` return
the diagnostic red and both light `Illuminate`s return black, while the
empty-name constructor defaults the name to `"PhongMaterial"` (normal shading
path). -/
theorem c9_name_dispatch (a d sp : Vec3) (sh : ℝ) (mi : Vec3) (name : String)
    (hlen : name.length ≠ 0) (hname : name ≠ "PhongMaterial")
    (tmin tmax : ℝ) (ray : Ray) (scene : Surface) (lights : List Light)
    (hhit : (scene.hit ray tmin tmax HitRecord.empty).1 = true)
    (hmat : (scene.hit ray tmin tmax HitRecord.empty).2.material
      = some (PhongMaterial.create a d sp sh mi name))
    (position intensity color viewVec : Vec3) :
    rayColor tmin tmax ray scene lights = (true, ⟨1, 0, 0⟩)
    ∧ pointIlluminate position intensity (scene.hit ray tmin tmax HitRecord.empty).2 viewVec = 0
    ∧ ambientIlluminate color (scene.hit ray tmin tmax HitRecord.empty).2 viewVec = 0
    ∧ (PhongMaterial.create a d sp sh mi "").name = "PhongMaterial" := by
  have hcname : (PhongMaterial.create a d sp sh mi name).name = name := by
    simp only [PhongMaterial.create]
    rw [if_neg hlen]
  have hnm : ∀ m', (scene.hit ray tmin tmax HitRecord.empty).2.material = some m' →
      m'.name ≠ "PhongMaterial" := by
    intro m' hm'
    rw [hmat, Option.some.injEq] at hm'
    rw [← hm', hcname]
    exact hname
  exact ⟨rayColor_nonphong tmin tmax ray scene lights hhit hnm,
    pointIlluminate_nonphong position intensity _ viewVec hnm,
    ambientIlluminate_nonphong color _ viewVec hnm,
    by simp [PhongMaterial.create]⟩

/-- C9 witness: a sphere whose `PhongMaterial` is named `"Foo"`: `RayColor`
yields the diagnostic red and both lights contribute black on its hit
record. -/
theorem c9_witness :
    rayColor 0 2 ray0 sphF [] = (true, ⟨1, 0, 0⟩)
    ∧ pointIlluminate ⟨0, 0, 5⟩ ⟨1, 1, 1⟩ (Surface.hit sphF ray0 0 2 HitRecord.empty).2
        ⟨0, 0, 1⟩ = 0
    ∧ ambientIlluminate ⟨1, 1, 1⟩ (Surface.hit sphF ray0 0 2 HitRecord.empty).2
        ⟨0, 0, 1⟩ = 0 := by
  have hhit := sphereA_hit (some matF) 2 (by norm_num) HitRecord.empty
  have h := c9_name_dispatch ⟨0, 0, 0⟩ ⟨1, 1, 1⟩ ⟨0, 0, 0⟩ 1 ⟨0, 0, 0⟩ "Foo"
    (by decide) (by decide) 0 2 ray0 sphF []
    (by rw [show Surface.hit sphF ray0 0 2 HitRecord.empty = _ from hhit])
    (by rw [show Surface.hit sphF ray0 0 2 HitRecord.empty = _ from hhit]; rfl)
    ⟨0, 0, 5⟩ ⟨1, 1, 1⟩ ⟨1, 1, 1⟩ ⟨0, 0, 1⟩
  exact ⟨h.1, h.2.1, h.2.2.1⟩
